import Mathlib

/-!
# Verification of the QR-marker indoor navigation core

Shallow embedding, in Lean 4, of the core of the `mini_project1` navigation
system (`qr_detection.py`, `route_guidance.py`, `navigation_logic.py`) and
proofs about it.

Conventions used throughout:

* Python `dict`s keyed by strings are modelled as association lists
  (`List (String × α)`) with `lookupA` / `insertA`.
* Python `float` quantities that the code manipulates exactly (graph edge
  weights, coordinates, pixel sizes) are modelled as `ℚ`; quantities produced
  by `math.sqrt` / `math.atan2` are modelled as `ℝ`.
* `float('inf')` entries of the Dijkstra `distances` dict are modelled by
  absence from the finite distance map (`Option ℚ`, `none` = infinity).
* The `while pq:` loop of Dijkstra is written with explicit fuel; the fuel
  chosen in `find_shortest_path` dominates the number of loop iterations the
  Python loop can perform (1 + one per heap push, and at most one push per
  directed edge).
-/

namespace MPNav

/-! ## Association lists (Python dicts) -/

/-- Lookup in an association list, first binding wins (Python dict lookup). -/
def lookupA {α : Type} : List (String × α) → String → Option α
  | [], _ => none
  | (k, v) :: t, a => if k = a then some v else lookupA t a

/-- Update-or-append of a key binding (Python `d[k] = v`). -/
def insertA {α : Type} : List (String × α) → String → α → List (String × α)
  | [], k, v => [(k, v)]
  | (k', v') :: t, k, v => if k' = k then (k, v) :: t else (k', v') :: insertA t k v

/-! ## The weighted graph (`RouteGuidance.graph`)

`self.graph : Dict[str, List[Tuple[str, float]]]` maps a location id to its
adjacency list of `(neighbor, weight)` pairs. -/

/-- The graph type of `route_guidance.py`. -/
abbrev Graph := List (String × List (String × ℚ))

/-- `self.graph.get(u, [])` — adjacency list of `u`. -/
def adjOf (g : Graph) (u : String) : List (String × ℚ) :=
  (lookupA g u).getD []

/-- A node is in the graph iff it is a key (`u in self.graph`). -/
def memGraph (g : Graph) (u : String) : Bool :=
  (lookupA g u).isSome

/-! ## Dijkstra (`RouteGuidance.find_shortest_path`, route_guidance.py 149-203) -/

/-- The mutable state of the Dijkstra loop: the finite part of the
`distances` dict (`none` = `float('inf')`), the non-`None` part of
`predecessors`, the heap `pq`, and the `visited` set. -/
structure DijkstraState where
  dist : List (String × ℚ)
  pred : List (String × String)
  pq : List (ℚ × String)
  visited : List String

/-- `distances[v]` (`none` plays the role of `float('inf')`). -/
def distOf (dist : List (String × ℚ)) (v : String) : Option ℚ :=
  lookupA dist v

/-- `distance < distances[neighbor]` with `distances[neighbor]` possibly inf. -/
def distLT (q : ℚ) (d : Option ℚ) : Bool :=
  match d with
  | none => true
  | some r => decide (q < r)

/-- Strict order on heap entries: Python's `heapq` orders `(float, str)`
tuples lexicographically. -/
def pqLT (a b : ℚ × String) : Bool :=
  decide (a.1 < b.1) || (decide (a.1 = b.1) && decide (a.2 < b.2))

/-- Remove the first occurrence of an entry from the heap list. -/
def eraseOne : List (ℚ × String) → (ℚ × String) → List (ℚ × String)
  | [], _ => []
  | x :: xs, a => if x = a then xs else x :: eraseOne xs a

/-- `heapq.heappop`: return a minimal entry (ties keep the earliest listed,
which for `heapq` is observationally equivalent: equal keys are equal
`(distance, node)` tuples) together with the rest of the heap. -/
def popMin (pq : List (ℚ × String)) : Option ((ℚ × String) × List (ℚ × String)) :=
  match pq with
  | [] => none
  | x :: xs =>
    let m := xs.foldl (fun acc y => if pqLT y acc then y else acc) x
    some (m, eraseOne (x :: xs) m)

/-- One relaxation step of the inner `for neighbor, weight in ...` loop:
skip visited neighbors, otherwise compare `current_distance + weight` with
`distances[neighbor]` and update `distances`, `predecessors`, `pq`. -/
def relaxOne (visited : List String) (d : ℚ) (u : String)
    (st : List (String × ℚ) × List (String × String) × List (ℚ × String))
    (e : String × ℚ) :
    List (String × ℚ) × List (String × String) × List (ℚ × String) :=
  let (dist, pred, pq) := st
  let (v, w) := e
  if v ∈ visited then st
  else
    let nd := d + w
    if distLT nd (distOf dist v) then
      (insertA dist v nd, insertA pred v u, pq ++ [(nd, v)])
    else st

/-- The `while pq:` loop, with fuel. Each iteration pops one heap entry;
visited entries are skipped (`continue`), popping `end_id` stops the loop
(`break`), otherwise all out-edges of the popped node are relaxed. -/
def dijkstraLoop (g : Graph) (endId : String) : Nat → DijkstraState → DijkstraState
  | 0, st => st
  | fuel + 1, st =>
    match popMin st.pq with
    | none => st
    | some ((d, u), pq') =>
      if u ∈ st.visited then
        dijkstraLoop g endId fuel { st with pq := pq' }
      else
        let visited' := u :: st.visited
        if u = endId then { st with pq := pq', visited := visited' }
        else
          let (dist', pred', pq'') :=
            (adjOf g u).foldl (relaxOne visited' d u) (st.dist, st.pred, pq')
          dijkstraLoop g endId fuel
            { dist := dist', pred := pred', pq := pq'', visited := visited' }

/-- Path reconstruction (`while current_node is not None: path.append; ...`
followed by `path[::-1]`): repeatedly follow `predecessors`, consing as we
go, which directly produces the reversed (start-to-end) path. Fuel bounds
the chain length; `find_shortest_path` passes one more than the number of
predecessor entries, which the proofs below show is enough. -/
def rebuildAux (pred : List (String × String)) : Nat → String → List String → List String
  | 0, cur, acc => cur :: acc
  | n + 1, cur, acc =>
    match lookupA pred cur with
    | none => cur :: acc
    | some u => rebuildAux pred n u (cur :: acc)

/-- Total loop-iteration budget: `1 +` number of directed edges dominates
`1 +` the number of heap pushes, hence the number of iterations. -/
def fuelOf (g : Graph) : Nat :=
  1 + (g.map (fun p => p.2.length)).sum

/-- `RouteGuidance.find_shortest_path` (route_guidance.py 149-203):
Dijkstra with a priority queue; `None` when either id is not a graph key or
when `distances[end_id]` is still infinite after the loop. -/
def find_shortest_path (g : Graph) (startId endId : String) : Option (List String) :=
  if ¬ memGraph g startId ∨ ¬ memGraph g endId then none
  else if startId = endId then some [startId]
  else
    let st₀ : DijkstraState :=
      { dist := [(startId, 0)], pred := [], pq := [(0, startId)], visited := [] }
    let st := dijkstraLoop g endId (fuelOf g) st₀
    match distOf st.dist endId with
    | none => none
    | some _ => some (rebuildAux st.pred (st.pred.length + 1) endId [])

/-! ## Paths in a graph

Used to state optimality of `find_shortest_path`: a path is a nonempty list
of nodes, consecutive ones joined by a directed edge of the graph. -/

/-- Weight of the directed edge `u → v`, if present (first match wins). -/
def edgeWeight (g : Graph) (u v : String) : Option ℚ :=
  lookupA (adjOf g u) v

/-- Consecutive elements joined by edges. -/
def chainedB (g : Graph) : List String → Bool
  | [] => true
  | [_] => true
  | x :: y :: t => (edgeWeight g x y).isSome && chainedB g (y :: t)

/-- `p` is a path from `u` to `v` in `g`. -/
def isPathIn (g : Graph) (u v : String) (p : List String) : Bool :=
  decide (p.head? = some u) && decide (p.getLast? = some v) && chainedB g p

/-- Summed edge weight of a node list (absent edges count 0; on paths all
edges are present). -/
def pathWeight (g : Graph) : List String → ℚ
  | [] => 0
  | [_] => 0
  | x :: y :: t => (edgeWeight g x y).getD 0 + pathWeight g (y :: t)

/-- Reachability along directed edges. -/
inductive ReachableG (g : Graph) (s : String) : String → Prop
  | refl : ReachableG g s s
  | step {u v : String} {w : ℚ} :
      ReachableG g s u → (v, w) ∈ adjOf g u → ReachableG g s v

/-- Well-formedness that `RouteGuidance._build_graph` guarantees: every edge
weight is a Euclidean distance (non-negative) and both endpoints of every
edge are graph keys. -/
def WFGraph (g : Graph) : Prop :=
  ∀ e ∈ g, ∀ vw ∈ e.2, 0 ≤ vw.2 ∧ (lookupA g vw.1).isSome

/-! ## Predecessor chains (correctness skeleton for path reconstruction) -/

/-- The predecessor chain starting at `v` reaches `s`. -/
inductive Reaches (pred : List (String × String)) (s : String) : String → Prop
  | base : Reaches pred s s
  | step {v u : String} :
      lookupA pred v = some u → Reaches pred s u → Reaches pred s v

/-- `x` occurs on the predecessor chain starting at `v`. -/
inductive ChainMem (pred : List (String × String)) : String → String → Prop
  | refl (v : String) : ChainMem pred v v
  | tail {v u x : String} :
      lookupA pred v = some u → ChainMem pred u x → ChainMem pred v x

/-- `l` is the explicit predecessor chain from `v` down to `s`. -/
inductive ChainOK (pred : List (String × String)) (s : String) : String → List String → Prop
  | base : ChainOK pred s s [s]
  | step {v u : String} {l : List String} :
      lookupA pred v = some u → ChainOK pred s u l → ChainOK pred s v (v :: l)

/-! ## Location database and navigation data (`RouteGuidance`) -/

/-- One value of `RouteGuidance.location_database` (the fields the
navigation state machine reads: `location_name`, `coordinates`). -/
structure LocationData where
  location_name : String
  coordinates : ℚ × ℚ
deriving DecidableEq, Repr

/-- The read-only services a `NavigationProcessor` session holds: the graph,
the location database and the node-coordinate table of its `RouteGuidance`. -/
structure GuidanceCtx where
  graph : Graph
  locdb : List (String × LocationData)
  nodes : List (String × (ℚ × ℚ))
deriving Repr

/-- `math.sqrt((x2-x1)**2 + (y2-y1)**2)` — Euclidean distance between two
coordinates, as used for `total_distance` (route_guidance.py 299-303) and
`distance_meters` (navigation_logic.py 138-141). -/
noncomputable def euclid (p q : ℚ × ℚ) : ℝ :=
  Real.sqrt (((q.1 - p.1) ^ 2 + (q.2 - p.2) ^ 2 : ℚ) : ℝ)

/-- Total path distance of `prepare_navigation_data` (route_guidance.py
299-303): sum of Euclidean distances between consecutive path nodes, looked
up in `self.nodes` (a missing node contributes distance from/to `(0,0)`;
never happens for paths returned by `find_shortest_path` on the real map). -/
noncomputable def total_distance (nodes : List (String × (ℚ × ℚ))) : List String → ℝ
  | [] => 0
  | [_] => 0
  | x :: y :: t =>
      euclid ((lookupA nodes x).getD (0, 0)) ((lookupA nodes y).getD (0, 0)) +
        total_distance nodes (y :: t)

/-- Truthiness of an optional string (`if not destination_id:`): `None` and
`""` are falsy. -/
def strFalsy : Option String → Bool
  | none => true
  | some s => s = ""

/-- Python `str(x)` of an optional string (used in f-string messages). -/
def optStr : Option String → String
  | none => "None"
  | some s => s

/-- The path-producing part of `RouteGuidance.prepare_navigation_data`
(route_guidance.py 269-312): validate both ids (falsy check, then membership
in `location_database`), run `find_shortest_path`, and fail on a falsy path.
The map-plotting side effect and the derived `total_distance` /
`instructions` fields do not affect the path; `total_distance` is modelled
separately by `nav_total_distance`. -/
def prepare_navigation_path (ctx : GuidanceCtx) (cur : String) (dest : Option String) :
    Option (List String) :=
  if strFalsy (some cur) || strFalsy dest then none
  else if (lookupA ctx.locdb cur).isNone then none
  else if (lookupA ctx.locdb (optStr dest)).isNone then none
  else
    match find_shortest_path ctx.graph cur (optStr dest) with
    | none => none
    | some p => if p = [] then none else some p

/-- The `total_distance` field of the `prepare_navigation_data` result. -/
noncomputable def nav_total_distance (ctx : GuidanceCtx) (cur : String) (dest : Option String) :
    Option ℝ :=
  (prepare_navigation_path ctx cur dest).map (total_distance ctx.nodes)

/-- `math.atan2 y x`, as the argument of the complex number `x + y*I`. -/
noncomputable def atan2 (y x : ℝ) : ℝ :=
  Complex.arg ⟨x, y⟩

/-- `RouteGuidance._calculate_bearing` (route_guidance.py 352-364):
`degrees(atan2(x2-x1, y2-y1))`, normalized from `(-180, 180]` to `[0, 360)`
by adding 360 to negative values. -/
noncomputable def calculate_bearing (pos1 pos2 : ℚ × ℚ) : ℝ :=
  let angle := atan2 ((pos2.1 : ℝ) - (pos1.1 : ℝ)) ((pos2.2 : ℝ) - (pos1.2 : ℝ)) * (180 / Real.pi)
  if angle < 0 then angle + 360 else angle

/-! ## QR detection (`qr_detection.py`)

The pyzbar `decode` primitive is external (spec §1): a frame is abstracted
by the decode output it produces on each preprocessing variant, i.e. a list
(one entry per preprocessed image, in priority order) of lists of raw decode
results. Geometry is exact integer/rational arithmetic in the source, so it
is embedded exactly; the pixel-level color classification of
`identify_qr_color` needs per-pixel image data and is carried through as an
opaque string field of the raw decode result. -/

/-- One raw pyzbar decode result: the polygon corners (`qr.polygon`) plus
the color `identify_qr_color` assigns to the region. -/
structure RawQR where
  corners : List (ℤ × ℤ)
  color : String
deriving DecidableEq, Repr

/-- A detected QR target (`QRTarget`, qr_detection.py 24-34).
`distance_estimate` uses `⊤` for `float('inf')`. -/
structure QRTarget where
  center_x : ℤ
  center_y : ℤ
  width : ℤ
  height : ℤ
  distance_estimate : WithTop ℚ
  color : String
  corners : List (ℤ × ℤ)
deriving DecidableEq, Repr

/-- `QRDetectionModule.reference_size` (qr_detection.py 57). -/
def reference_size : ℚ := 200

/-- `QRDetectionModule.reference_distance` (qr_detection.py 58). -/
def reference_distance : ℚ := 30

/-- `QRDetectionModule.estimate_distance` (qr_detection.py 186-201):
`(reference_size * reference_distance) / qr_size`, `float('inf')` when
`qr_size <= 0`. -/
def estimate_distance (qr_size : ℚ) : WithTop ℚ :=
  if qr_size ≤ 0 then ⊤
  else ((reference_size * reference_distance / qr_size : ℚ) : WithTop ℚ)

/-- The per-decode-result construction inside `detect_qr_codes`
(qr_detection.py 142-174): center = floor-div mean of corner coordinates,
width/height = bounding-box extents, distance from the average size.
(`angle_from_center` is not read by any claim-relevant code path and is
omitted.) -/
def mkTarget (raw : RawQR) : QRTarget :=
  let xs := raw.corners.map Prod.fst
  let ys := raw.corners.map Prod.snd
  let n : ℤ := (raw.corners.length : ℤ)
  let cx := Int.fdiv (xs.foldl (· + ·) 0) n
  let cy := Int.fdiv (ys.foldl (· + ·) 0) n
  let w := xs.foldl max (xs.headD 0) - xs.foldl min (xs.headD 0)
  let h := ys.foldl max (ys.headD 0) - ys.foldl min (ys.headD 0)
  { center_x := cx, center_y := cy, width := w, height := h,
    distance_estimate := estimate_distance (((w + h : ℤ) : ℚ) / 2),
    color := raw.color, corners := raw.corners }

/-- Squared center distance of two targets (integer pixels). -/
def centerDist2 (t e : QRTarget) : ℤ :=
  (t.center_x - e.center_x) ^ 2 + (t.center_y - e.center_y) ^ 2

/-- The Euclidean center distance `math.sqrt(dx**2 + dy**2)` of
`is_duplicate` (qr_detection.py 261-265). -/
noncomputable def centerDistance (t e : QRTarget) : ℝ :=
  Real.sqrt ((centerDist2 t e : ℤ) : ℝ)

/-- `QRDetectionModule.is_duplicate` (qr_detection.py 248-268), default
threshold 50 px: the source compares `sqrt(dx^2+dy^2) < threshold`, which
for a positive threshold is equivalent to the squared comparison used here
(made exact by `centerDistance_lt_iff` below). -/
def is_duplicate (target : QRTarget) (existing : List QRTarget) (threshold : ℤ := 50) : Bool :=
  existing.any fun e => decide (centerDist2 target e < threshold ^ 2)

/-- The body of the per-variant loop of `detect_qr_codes` (qr_detection.py
139-178): fold the decode results, appending each new target unless it is a
duplicate of an already-accepted one. -/
def processVariant (decoded : List RawQR) (acc : List QRTarget) : List QRTarget :=
  decoded.foldl
    (fun acc raw =>
      let t := mkTarget raw
      if is_duplicate t acc then acc else acc ++ [t])
    acc

/-- `QRDetectionModule.detect_qr_codes` (qr_detection.py 106-184), with the
frame abstracted by the decode output of each preprocessing variant in
priority order. The source accumulates into one list and `break`s as soon
as it is nonempty after a variant, which is the same as: process variants in
order starting from `[]` and return the first nonempty result. -/
def detect_qr_codes : List (List RawQR) → List QRTarget
  | [] => []
  | d :: rest =>
    let out := processVariant d []
    if out = [] then detect_qr_codes rest else out

/-! ## The navigation session (`navigation_logic.py`)

`qr_decoder.py` is not part of the sources; per the spec the decoder is an
external capability. -/

/-- Modelled from the spec: the `LocationInfo` record produced by the
external QR decoder (`qr_decoder.py`, not under the sources) — exactly the
fields `navigation_logic.py` reads: `location_id`, `location_name`,
`coordinates`. -/
structure LocationInfo where
  location_id : String
  location_name : String
  coordinates : ℚ × ℚ
deriving DecidableEq, Repr

/-- The mutable state of a `NavigationProcessor` session
(navigation_logic.py 25-27). -/
structure NavState where
  current_location : Option LocationInfo
  destination_id : Option String
  current_path : Option (List String)
deriving DecidableEq, Repr

/-- What one camera frame yields after detection and payload decoding: no
marker in view, a marker whose payload the decoder cannot read, or a marker
decoding to a `LocationInfo` (always carrying the raw corner geometry). -/
inductive FrameObs where
  | noMarker
  | markerUnreadable (corners : List (ℤ × ℤ))
  | markerReadable (corners : List (ℤ × ℤ)) (loc : LocationInfo)
deriving DecidableEq, Repr

/-- Result dictionary of `set_destination` (navigation_logic.py 44-61). -/
inductive SetDestResult where
  | PATH_READY (message : String) (path : List String)
  | ERROR (message : String)
deriving DecidableEq, Repr

/-- Result dictionary of `process_camera_frame` (one constructor per
`status` value; fields are the status-specific payload). -/
inductive NavResult where
  | SCANNING
  | DETECTED (corners : List (ℤ × ℤ))
  | ERROR (message : String)
  | LOCATION_CONFIRMED (location_name location_id : String) (corners : List (ℤ × ℤ))
  | ARRIVED (location_name : String) (corners : List (ℤ × ℤ))
  | OFF_TRACK_RECALCULATED (new_path : List String) (corners : List (ℤ × ℤ))
  | OFF_TRACK_ERROR (message : String) (corners : List (ℤ × ℤ))
  | NAVIGATING (next_waypoint_name : String) (target_azimuth target_distance : ℝ)
      (corners : List (ℤ × ℤ))

/-- `NavigationProcessor.set_destination` (navigation_logic.py 44-61),
returning the updated session state together with the result. Note the
state updates: `destination_id` is assigned before planning, and on planning
failure `current_path` is set to `None`. (`find_shortest_path` never
returns an empty path, so `if nav_data and nav_data.get("path")` is the
success of `prepare_navigation_path`.) -/
def set_destination (ctx : GuidanceCtx) (s : NavState) (dest : Option String) :
    NavState × SetDestResult :=
  match s.current_location with
  | none => (s, .ERROR "Current location is unknown. Scan a QR code first.")
  | some cur =>
    let s₁ := { s with destination_id := dest }
    match prepare_navigation_path ctx cur.location_id dest with
    | some p =>
        ({ s₁ with current_path := some p },
         .PATH_READY "Path calculated successfully." p)
    | none =>
        ({ s₁ with current_path := none },
         .ERROR ("Could not find a path to " ++ optStr dest ++ "."))

/-- The core state update of `process_camera_frame` (navigation_logic.py
82-87): replace `current_location` only when the decoded id differs from the
previous confirmed one. -/
def updateLocation (s : NavState) (loc : LocationInfo) : NavState :=
  match s.current_location with
  | some c => if c.location_id = loc.location_id then s else { s with current_location := some loc }
  | none => { s with current_location := some loc }

/-- The location record that is current after a readable frame for `loc`:
the old record if it has the same id, otherwise `loc`. -/
def confirmedOf (s : NavState) (loc : LocationInfo) : LocationInfo :=
  match s.current_location with
  | some c => if c.location_id = loc.location_id then c else loc
  | none => loc

/-- `list.index` (first index of an element; callers guarantee membership,
matching the `in` guard before `path.index` in the source). -/
def idxOf : List String → String → Nat
  | [], _ => 0
  | x :: t, a => if x = a then 0 else idxOf t a + 1

/-- `NavigationProcessor._update_navigation_status` (navigation_logic.py
96-154): the per-frame state machine run after a location is confirmed,
returning the updated session state and the status result. -/
noncomputable def update_navigation_status (ctx : GuidanceCtx) (s : NavState) (corners : List (ℤ × ℤ)) :
    NavState × NavResult :=
  match s.current_location with
  | none => (s, .ERROR "Critical: current_location is None.")
  | some cur =>
    let defaultRes := NavResult.LOCATION_CONFIRMED cur.location_name cur.location_id corners
    match s.current_path with
    | none => (s, defaultRes)
    | some path =>
      if path = [] then (s, defaultRes)
      else if s.destination_id = some cur.location_id then
        (s, .ARRIVED cur.location_name corners)
      else if cur.location_id ∉ path then
        let (s', r) := set_destination ctx s s.destination_id
        match r with
        | .PATH_READY _ p => (s', .OFF_TRACK_RECALCULATED p corners)
        | .ERROR _ => (s', .OFF_TRACK_ERROR "Off track. Failed to recalculate." corners)
      else
        let ci := idxOf path cur.location_id
        if ci + 1 < path.length then
          let nextId := path.getD (ci + 1) ""
          match lookupA ctx.locdb nextId with
          | some info =>
              (s, .NAVIGATING info.location_name
                    (calculate_bearing cur.coordinates info.coordinates)
                    (euclid cur.coordinates info.coordinates) corners)
          | none => (s, defaultRes)
        else (s, defaultRes)

/-- `NavigationProcessor.process_camera_frame` (navigation_logic.py 63-94)
on a frame that decodes as `obs`: no marker yields `SCANNING`, an unreadable
payload yields `DETECTED`, a readable payload updates the location and runs
the state machine. -/
noncomputable def process_camera_frame (ctx : GuidanceCtx) (s : NavState) (obs : FrameObs) :
    NavState × NavResult :=
  match obs with
  | .noMarker => (s, .SCANNING)
  | .markerUnreadable corners => (s, .DETECTED corners)
  | .markerReadable corners loc => update_navigation_status ctx (updateLocation s loc) corners

/-- The session invariant (spec §3): a nonempty active path ends at the
destination that was set when it was planned. Established by
`set_destination` and preserved by `process_camera_frame` (see
`sessionInv_set_destination` and `sessionInv_process_camera_frame`). -/
def SessionInv (s : NavState) : Prop :=
  ∀ p, s.current_path = some p → p ≠ [] → p.getLast? = s.destination_id

/-- Does a result report an off-track (re-planning) outcome? -/
def isOffTrackResult : NavResult → Bool
  | .OFF_TRACK_RECALCULATED _ _ => true
  | .OFF_TRACK_ERROR _ _ => true
  | _ => false

/-! ## Fixtures

The spec's small fixture graph: nodes `A, B, C`, undirected edges `A-B` of
weight 3 and `B-C` of weight 4 (spec §8), with coordinates chosen so that
the Euclidean node distances equal those weights
(`|AB| = |(3,0)-(0,0)| = 3`, `|BC| = |(3,4)-(3,0)| = 4`). -/

/-- Fixture graph `A-B` (3), `B-C` (4), both directions as
`_build_graph` inserts them. -/
def fixGraph : Graph :=
  [("A", [("B", 3)]), ("B", [("A", 3), ("C", 4)]), ("C", [("B", 4)])]

/-- Fixture node coordinates. -/
def fixNodes : List (String × (ℚ × ℚ)) :=
  [("A", (0, 0)), ("B", (3, 0)), ("C", (3, 4))]

/-- Fixture location database. -/
def fixDB : List (String × LocationData) :=
  [("A", ⟨"Room A", (0, 0)⟩), ("B", ⟨"Room B", (3, 0)⟩), ("C", ⟨"Room C", (3, 4)⟩)]

/-- Fixture guidance services. -/
def fixCtx : GuidanceCtx :=
  { graph := fixGraph, locdb := fixDB, nodes := fixNodes }

/-- Fixture graph extended with a node `D` adjacent to `C` (weight 5,
`D = (6,8)`), used for off-track scenarios. -/
def fixGraphD : Graph :=
  [("A", [("B", 3)]), ("B", [("A", 3), ("C", 4)]), ("C", [("B", 4), ("D", 5)]),
   ("D", [("C", 5)])]

/-- Fixture database with `D`. -/
def fixDBD : List (String × LocationData) :=
  [("A", ⟨"Room A", (0, 0)⟩), ("B", ⟨"Room B", (3, 0)⟩), ("C", ⟨"Room C", (3, 4)⟩),
   ("D", ⟨"Room D", (6, 8)⟩)]

/-- Fixture guidance services with `D`. -/
def fixCtxD : GuidanceCtx :=
  { graph := fixGraphD, locdb := fixDBD,
    nodes := [("A", (0, 0)), ("B", (3, 0)), ("C", (3, 4)), ("D", (6, 8))] }

/-- Decoded marker records of the fixture locations. -/
def locA : LocationInfo := ⟨"A", "Room A", (0, 0)⟩

/-- Decoded marker record of fixture location `B`. -/
def locB : LocationInfo := ⟨"B", "Room B", (3, 0)⟩

/-- Decoded marker record of fixture location `C`. -/
def locC : LocationInfo := ⟨"C", "Room C", (3, 4)⟩

/-- Decoded marker record of fixture location `D`. -/
def locD : LocationInfo := ⟨"D", "Room D", (6, 8)⟩

/-- A two-node graph with no edges (disconnected fixture). -/
def gIsolated : Graph := [("A", []), ("D", [])]

/-- The true shortest-path distance table of `fixGraph` (0 on the diagonal,
and the table values on the fixture nodes; the remaining values are
irrelevant — no path of `fixGraph` leaves `{A, B, C}`). -/
def fixDelta (u v : String) : ℚ :=
  if u = v then 0
  else if (u = "A" ∧ v = "B") ∨ (u = "B" ∧ v = "A") then 3
  else if (u = "B" ∧ v = "C") ∨ (u = "C" ∧ v = "B") then 4
  else if (u = "A" ∧ v = "C") ∨ (u = "C" ∧ v = "A") then 7
  else 0

/-- The Dijkstra loop invariant, over the mutable components `dist`
(finite part of `distances`), `pred` (non-`None` part of `predecessors`)
and `pq`, for a run that started at `s` on `g`. -/
structure Inv (g : Graph) (s : String)
    (dist : List (String × ℚ)) (pred : List (String × String))
    (pq : List (ℚ × String)) : Prop where
  dist_s : distOf dist s = some 0
  pq_nonneg : ∀ e ∈ pq, 0 ≤ e.1
  pred_s : lookupA pred s = none
  pred_reaches : ∀ v u, lookupA pred v = some u → Reaches pred s v
  dist_pred : ∀ v, v ≠ s → (distOf dist v).isSome → (lookupA pred v).isSome
  pred_mono : ∀ v u, lookupA pred v = some u →
    ∃ du dv, distOf dist u = some du ∧ distOf dist v = some dv ∧ du ≤ dv
  pq_dist : ∀ e ∈ pq, ∃ dv, distOf dist e.2 = some dv ∧ dv ≤ e.1
  dist_reach : ∀ v, (distOf dist v).isSome → ReachableG g s v
  pq_reach : ∀ e ∈ pq, ReachableG g s e.2

/-! ## Theorems -/

/-! ### Association-list and heap lemmas -/

/-- Looking up the freshly inserted key. -/
theorem lookupA_insertA_self {α : Type} :
    ∀ (l : List (String × α)) (k : String) (v : α), lookupA (insertA l k v) k = some v
  | [], k, v => by simp [insertA, lookupA]
  | (k', v') :: t, k, v => by
    by_cases hp : k' = k
    · simp [insertA, hp, lookupA]
    · rw [insertA, if_neg hp, lookupA, if_neg hp]
      exact lookupA_insertA_self t k v

/-- Insertion does not disturb other keys. -/
theorem lookupA_insertA_ne {α : Type} :
    ∀ (l : List (String × α)) (k a : String) (v : α), a ≠ k →
      lookupA (insertA l k v) a = lookupA l a
  | [], k, a, v, h => by
    simp only [insertA, lookupA]
    rw [if_neg (fun hh => h hh.symm)]
  | (k', v') :: t, k, a, v, h => by
    by_cases hp : k' = k
    · subst hp
      rw [insertA, if_pos rfl, lookupA, lookupA, if_neg (fun hh => h hh.symm),
        if_neg (fun hh => h hh.symm)]
    · rw [insertA, if_neg hp, lookupA, lookupA]
      by_cases hk : k' = a
      · rw [if_pos hk, if_pos hk]
      · rw [if_neg hk, if_neg hk]
        exact lookupA_insertA_ne t k a v h

/-- A successful lookup comes from a list member. -/
theorem lookupA_mem {α : Type} :
    ∀ {l : List (String × α)} {k : String} {v : α}, lookupA l k = some v → (k, v) ∈ l
  | [], _, _, h => by simp [lookupA] at h
  | (k', v') :: t, k, v, h => by
    by_cases hk : k' = k
    · subst hk
      rw [lookupA, if_pos rfl] at h
      obtain rfl : v' = v := Option.some.inj h
      exact List.mem_cons_self _ _
    · rw [lookupA, if_neg hk] at h
      exact List.mem_cons_of_mem _ (lookupA_mem h)

/-- A key whose lookup succeeds is among the keys. -/
theorem lookupA_isSome_mem_keys {α : Type} {l : List (String × α)} {k : String}
    (h : (lookupA l k).isSome) : k ∈ l.map Prod.fst := by
  obtain ⟨v, hv⟩ := Option.isSome_iff_exists.mp h
  exact List.mem_map.mpr ⟨(k, v), lookupA_mem hv, rfl⟩

/-- The fold used by `popMin` selects an element of `x :: xs`. -/
theorem foldlMin_mem :
    ∀ (xs : List (ℚ × String)) (x : ℚ × String),
      xs.foldl (fun acc y => if pqLT y acc then y else acc) x = x ∨
        xs.foldl (fun acc y => if pqLT y acc then y else acc) x ∈ xs
  | [], x => Or.inl rfl
  | y :: t, x => by
    rw [List.foldl_cons]
    by_cases h : pqLT y x = true
    · rw [if_pos h]
      rcases foldlMin_mem t y with h1 | h1
      · exact Or.inr (by simp [h1])
      · exact Or.inr (by simp [h1])
    · rw [if_neg h]
      rcases foldlMin_mem t x with h1 | h1
      · exact Or.inl h1
      · exact Or.inr (by simp [h1])

/-- `eraseOne` only removes. -/
theorem eraseOne_subset :
    ∀ (l : List (ℚ × String)) (a y : ℚ × String), y ∈ eraseOne l a → y ∈ l
  | [], a, y, h => by simp [eraseOne] at h
  | x :: xs, a, y, h => by
    by_cases hx : x = a
    · rw [eraseOne, if_pos hx] at h
      exact List.mem_cons_of_mem _ h
    · rw [eraseOne, if_neg hx] at h
      rcases List.mem_cons.mp h with h1 | h1
      · exact h1 ▸ List.mem_cons_self _ _
      · exact List.mem_cons_of_mem _ (eraseOne_subset xs a y h1)

/-- The entry popped by `popMin` was in the heap, and the remaining heap is
a subset of the old one. -/
theorem popMin_spec (pq : List (ℚ × String)) (e : ℚ × String) (rest : List (ℚ × String))
    (h : popMin pq = some (e, rest)) : e ∈ pq ∧ ∀ y ∈ rest, y ∈ pq := by
  cases pq with
  | nil => simp [popMin] at h
  | cons x xs =>
    rw [popMin] at h
    obtain ⟨he, hrest⟩ := Prod.mk.injEq .. ▸ Option.some.inj h
    constructor
    · rcases foldlMin_mem xs x with h1 | h1
      · rw [← he, h1]; exact List.mem_cons_self _ _
      · rw [← he]; exact List.mem_cons_of_mem _ h1
    · intro y hy
      rw [← hrest] at hy
      exact eraseOne_subset _ _ _ hy

/-- `rebuildAux` never returns the empty list. -/
theorem rebuildAux_ne_nil (pred : List (String × String)) :
    ∀ (fuel : Nat) (cur : String) (acc : List String),
      rebuildAux pred fuel cur acc ≠ []
  | 0, cur, acc => by simp [rebuildAux]
  | fuel + 1, cur, acc => by
    rw [rebuildAux]
    cases lookupA pred cur with
    | none => simp
    | some u => exact rebuildAux_ne_nil pred fuel u (cur :: acc)

/-- `rebuildAux` appends on top of its accumulator. -/
theorem rebuildAux_extends (pred : List (String × String)) :
    ∀ (fuel : Nat) (cur : String) (acc : List String),
      ∃ l, rebuildAux pred fuel cur acc = l ++ cur :: acc
  | 0, cur, acc => ⟨[], by simp [rebuildAux]⟩
  | fuel + 1, cur, acc => by
    rw [rebuildAux]
    cases lookupA pred cur with
    | none => exact ⟨[], by simp⟩
    | some u =>
      obtain ⟨l, hl⟩ := rebuildAux_extends pred fuel u (cur :: acc)
      exact ⟨l ++ [u], by simp [hl]⟩

/-! ### Predecessor-chain lemmas -/

/-- A `Reaches` derivation yields an explicit chain. -/
theorem reaches_chainOK {pred : List (String × String)} {s v : String}
    (h : Reaches pred s v) : ∃ l, ChainOK pred s v l := by
  induction h with
  | base => exact ⟨[s], ChainOK.base⟩
  | step h1 _ ih =>
    obtain ⟨l, hl⟩ := ih
    exact ⟨_ :: l, ChainOK.step h1 hl⟩

/-- Chains are nonempty. -/
theorem chainOK_ne_nil {pred : List (String × String)} {s v : String} {l : List String}
    (h : ChainOK pred s v l) : l ≠ [] := by
  cases h <;> simp

/-- A chain ends at `s`. -/
theorem chainOK_getLast {pred : List (String × String)} {s : String} :
    ∀ {v : String} {l : List String}, ChainOK pred s v l → l.getLast? = some s := by
  intro v l h
  induction h with
  | base => rfl
  | step h1 h2 ih =>
    rename_i v' u' l'
    cases hll : l' with
    | nil => exact absurd hll (chainOK_ne_nil h2)
    | cons a b =>
      rw [hll] at ih
      rw [List.getLast?_cons_cons]
      exact ih

/-- Every member of a chain starts its own suffix chain. -/
theorem chainOK_mem_suffix {pred : List (String × String)} {s : String} :
    ∀ {u : String} {l : List String}, ChainOK pred s u l →
      ∀ v ∈ l, ∃ l₂, ChainOK pred s v l₂ ∧ l₂.Sublist l := by
  intro u l h
  induction h with
  | base =>
    intro v hv
    have hv' : v = s := by simpa using hv
    subst hv'
    exact ⟨[v], ChainOK.base, List.Sublist.refl _⟩
  | step h1 h2 ih =>
    intro v hv
    rcases List.mem_cons.mp hv with rfl | hv2
    · exact ⟨_, ChainOK.step h1 h2, List.Sublist.refl _⟩
    · obtain ⟨l₂, hc, hsub⟩ := ih v hv2
      exact ⟨l₂, hc, hsub.cons _⟩

/-- Chains can be chosen without repeated nodes. -/
theorem chainOK_nodup {pred : List (String × String)} {s : String} :
    ∀ {v : String} {l : List String}, ChainOK pred s v l →
      ∃ l₂, ChainOK pred s v l₂ ∧ l₂.Nodup := by
  intro v l h
  induction h with
  | base => exact ⟨[s], ChainOK.base, by simp⟩
  | step h1 h2 ih =>
    rename_i v' u' l'
    obtain ⟨l₂, hc, hnd⟩ := ih
    by_cases hv : v' ∈ l₂
    · obtain ⟨l₃, hc3, hsub⟩ := chainOK_mem_suffix hc v' hv
      exact ⟨l₃, hc3, hsub.nodup hnd⟩
    · exact ⟨v' :: l₂, ChainOK.step h1 hc, List.nodup_cons.mpr ⟨hv, hnd⟩⟩

/-- Every non-final chain node has a predecessor entry. -/
theorem chainOK_dropLast_keys {pred : List (String × String)} {s : String} :
    ∀ {v : String} {l : List String}, ChainOK pred s v l →
      ∀ x ∈ l.dropLast, (lookupA pred x).isSome := by
  intro v l h
  induction h with
  | base => intro x hx; simp at hx
  | step h1 h2 ih =>
    rename_i v' u' l'
    intro x hx
    have hne : l' ≠ [] := chainOK_ne_nil h2
    rw [List.dropLast_cons_of_ne_nil hne] at hx
    rcases List.mem_cons.mp hx with rfl | hx2
    · simp [h1]
    · exact ih x hx2

/-- A duplicate-free list over a key set is no longer than the key list. -/
theorem nodup_length_le (l keys : List String) (hn : l.Nodup)
    (hsub : ∀ x ∈ l, x ∈ keys) : l.length ≤ keys.length := by
  have h1 : l.toFinset.card = l.length := List.toFinset_card_of_nodup hn
  have h2 : l.toFinset ⊆ keys.toFinset := by
    intro x hx
    exact List.mem_toFinset.mpr (hsub x (List.mem_toFinset.mp hx))
  calc l.length = l.toFinset.card := h1.symm
    _ ≤ keys.toFinset.card := Finset.card_le_card h2
    _ ≤ keys.length := List.toFinset_card_le keys

/-- With enough fuel, `rebuildAux` follows a chain exactly. -/
theorem rebuildAux_chain {pred : List (String × String)} {s : String}
    (hs : lookupA pred s = none) :
    ∀ {v : String} {l : List String}, ChainOK pred s v l →
      ∀ (fuel : Nat) (acc : List String), l.length ≤ fuel + 1 →
        rebuildAux pred fuel v acc = l.reverse ++ acc := by
  intro v l h
  induction h with
  | base =>
    intro fuel acc _
    cases fuel with
    | zero => simp [rebuildAux]
    | succ n => simp [rebuildAux, hs]
  | step h1 h2 ih =>
    rename_i v' u' l'
    intro fuel acc hlen
    have hl' : 1 ≤ l'.length := by
      cases hll : l' with
      | nil => exact absurd hll (chainOK_ne_nil h2)
      | cons a b => simp
    cases fuel with
    | zero =>
      rw [List.length_cons] at hlen
      exact absurd hlen (by omega)
    | succ n =>
      rw [rebuildAux, h1]
      show rebuildAux pred n u' (v' :: acc) = (v' :: l').reverse ++ acc
      rw [ih n (v' :: acc) (by rw [List.length_cons] at hlen; omega)]
      simp

/-- The reconstructed path begins at the chain's end point `s`. -/
theorem rebuildAux_head {pred : List (String × String)} {s v : String} {l : List String}
    (hs : lookupA pred s = none) (h : ChainOK pred s v l) (hlen : l.length ≤ pred.length + 1) :
    (rebuildAux pred (pred.length + 1) v []).head? = some s := by
  rw [rebuildAux_chain hs h (pred.length + 1) [] (by omega)]
  have hlast : l.getLast? = some s := chainOK_getLast h
  have : l.reverse.head? = some s := by rw [List.head?_reverse]; exact hlast
  cases hrev : l.reverse with
  | nil => rw [hrev] at this; simp at this
  | cons a t =>
    rw [hrev] at this
    simp only [List.head?_cons, Option.some_inj] at this
    simp [hrev, this]

/-! ### Dijkstra loop invariant -/

/-- `distLT` against a finite entry. -/
theorem distLT_some {q r : ℚ} : distLT q (some r) = true ↔ q < r := by
  simp [distLT]

/-- Chain membership propagates distance bounds (given `pred_mono`). -/
theorem chainMem_dist_le {dist : List (String × ℚ)} {pred : List (String × String)}
    (hmono : ∀ v u, lookupA pred v = some u →
      ∃ du dv, distOf dist u = some du ∧ distOf dist v = some dv ∧ du ≤ dv) :
    ∀ {x y : String}, ChainMem pred x y →
      y = x ∨ ∃ dx dy, distOf dist x = some dx ∧ distOf dist y = some dy ∧ dy ≤ dx := by
  intro x y h
  induction h with
  | refl v => exact Or.inl rfl
  | tail h1 h2 ih =>
    rename_i v u x'
    obtain ⟨du, dv, hdu, hdv, hle⟩ := hmono v u h1
    rcases ih with rfl | ⟨dx, dy, hdx, hdy, hle2⟩
    · exact Or.inr ⟨dv, du, hdv, hdu, hle⟩
    · right
      obtain rfl : dx = du := Option.some.inj (hdx ▸ hdu)
      exact ⟨dv, dy, hdv, hdy, le_trans hle2 (le_trans hle (le_refl dv))⟩

/-- Inserting a predecessor for `v` preserves reachability of nodes whose
chain avoids `v`. -/
theorem reaches_insertA_of_avoid {pred : List (String × String)} {s v u : String} :
    ∀ {x : String}, Reaches pred s x → ¬ ChainMem pred x v →
      Reaches (insertA pred v u) s x := by
  intro x h
  induction h with
  | base => intro _; exact Reaches.base
  | step h1 h2 ih =>
    rename_i x' y
    intro hnc
    have hxv : x' ≠ v := fun hh => hnc (hh ▸ ChainMem.refl x')
    have hnc2 : ¬ ChainMem pred y v := fun hc => hnc (ChainMem.tail h1 hc)
    exact Reaches.step (by rw [lookupA_insertA_ne _ _ _ _ hxv]; exact h1) (ih hnc2)

/-- Once the updated node reaches `s` in the new map, all old reachability
carries over. -/
theorem reaches_insertA_all {pred : List (String × String)} {s v u : String}
    (hv : Reaches (insertA pred v u) s v) :
    ∀ {x : String}, Reaches pred s x → Reaches (insertA pred v u) s x := by
  intro x h
  induction h with
  | base => exact Reaches.base
  | step h1 h2 ih =>
    rename_i x' y
    by_cases hxv : x' = v
    · exact hxv ▸ hv
    · exact Reaches.step (by rw [lookupA_insertA_ne _ _ _ _ hxv]; exact h1) ih

/-- Well-formedness specialized to adjacency-list members. -/
theorem wf_adjOf {g : Graph} (hwf : WFGraph g) {u v : String} {w : ℚ}
    (h : (v, w) ∈ adjOf g u) : 0 ≤ w ∧ (lookupA g v).isSome := by
  rw [adjOf] at h
  cases hl : lookupA g u with
  | none => rw [hl] at h; simp at h
  | some l =>
    rw [hl] at h
    simp only [Option.getD] at h
    exact hwf (u, l) (lookupA_mem hl) (v, w) h

/-- One relaxation step preserves the invariant (and the popped node's
distance entry). -/
theorem relaxOne_inv {g : Graph} {s : String} (hwf : WFGraph g)
    (visited : List String) (d : ℚ) (u : String) (hd0 : 0 ≤ d)
    (hur : ReachableG g s u)
    {dist : List (String × ℚ)} {pred : List (String × String)} {pq : List (ℚ × String)}
    (hinv : Inv g s dist pred pq)
    {du : ℚ} (hdu : distOf dist u = some du) (hdul : du ≤ d)
    (e : String × ℚ) (he : e ∈ adjOf g u) :
    Inv g s (relaxOne visited d u (dist, pred, pq) e).1
      (relaxOne visited d u (dist, pred, pq) e).2.1
      (relaxOne visited d u (dist, pred, pq) e).2.2 ∧
      distOf (relaxOne visited d u (dist, pred, pq) e).1 u = some du := by
  obtain ⟨v, w⟩ := e
  by_cases hvis : v ∈ visited
  · simp only [relaxOne, if_pos hvis]
    exact ⟨hinv, hdu⟩
  · by_cases hlt : distLT (d + w) (distOf dist v) = true
    · simp only [relaxOne, if_neg hvis, if_pos hlt]
      obtain ⟨hw, -⟩ := wf_adjOf hwf he
      have hnd0 : 0 ≤ d + w := add_nonneg hd0 hw
      have hvs : v ≠ s := by
        intro hh
        subst hh
        rw [hinv.dist_s, distLT_some] at hlt
        exact absurd hlt (not_lt.mpr hnd0)
      have hsv : s ≠ v := fun hh => hvs hh.symm
      have hune : u ≠ v := by
        intro hh
        subst hh
        rw [hdu, distLT_some] at hlt
        linarith
      have hcm : ¬ ChainMem pred u v := by
        intro hc
        rcases chainMem_dist_le hinv.pred_mono hc with rfl | ⟨dx, dy, hdx, hdy, hle⟩
        · exact hune rfl
        · obtain rfl : dx = du := Option.some.inj (hdx ▸ hdu)
          rw [hdy, distLT_some] at hlt
          linarith
      have hru : Reaches pred s u := by
        by_cases hus : u = s
        · exact hus ▸ Reaches.base
        · have h1 : (lookupA pred u).isSome :=
            hinv.dist_pred u hus (by rw [distOf] at hdu ⊢; rw [hdu]; rfl)
          obtain ⟨u₀, hu₀⟩ := Option.isSome_iff_exists.mp h1
          exact hinv.pred_reaches u u₀ hu₀
      have hrv : Reaches (insertA pred v u) s v :=
        Reaches.step (lookupA_insertA_self pred v u) (reaches_insertA_of_avoid hru hcm)
      refine ⟨⟨?_, ?_, ?_, ?_, ?_, ?_, ?_, ?_, ?_⟩, ?_⟩
      · show distOf (insertA dist v (d + w)) s = some 0
        rw [distOf, lookupA_insertA_ne _ _ _ _ hsv]
        exact hinv.dist_s
      · intro e' he'
        rcases List.mem_append.mp he' with h | h
        · exact hinv.pq_nonneg e' h
        · obtain rfl : e' = (d + w, v) := by simpa using h
          exact hnd0
      · show lookupA (insertA pred v u) s = none
        rw [lookupA_insertA_ne _ _ _ _ hsv]
        exact hinv.pred_s
      · intro x u₀ hx
        by_cases hxv : x = v
        · exact hxv ▸ hrv
        · rw [lookupA_insertA_ne _ _ _ _ hxv] at hx
          exact reaches_insertA_all hrv (hinv.pred_reaches x u₀ hx)
      · intro x hxs hxd
        by_cases hxv : x = v
        · subst hxv
          rw [lookupA_insertA_self]
          rfl
        · rw [distOf, lookupA_insertA_ne _ _ _ _ hxv] at hxd
          rw [lookupA_insertA_ne _ _ _ _ hxv]
          exact hinv.dist_pred x hxs hxd
      · intro x y hxy
        by_cases hxv : x = v
        · subst hxv
          rw [lookupA_insertA_self] at hxy
          obtain rfl : u = y := Option.some.inj hxy
          refine ⟨du, d + w, ?_, ?_, ?_⟩
          · rw [distOf, lookupA_insertA_ne _ _ _ _ hune]
            exact hdu
          · rw [distOf, lookupA_insertA_self]
          · linarith
        · rw [lookupA_insertA_ne _ _ _ _ hxv] at hxy
          obtain ⟨dy, dx, hdy, hdx, hle⟩ := hinv.pred_mono x y hxy
          have hdx' : distOf (insertA dist v (d + w)) x = some dx := by
            rw [distOf, lookupA_insertA_ne _ _ _ _ hxv]
            exact hdx
          by_cases hyv : y = v
          · subst hyv
            rw [hdy, distLT_some] at hlt
            refine ⟨d + w, dx, ?_, hdx', by linarith⟩
            rw [distOf, lookupA_insertA_self]
          · refine ⟨dy, dx, ?_, hdx', hle⟩
            rw [distOf, lookupA_insertA_ne _ _ _ _ hyv]
            exact hdy
      · intro e' he'
        rcases List.mem_append.mp he' with h | h
        · obtain ⟨dv', h1, h2⟩ := hinv.pq_dist e' h
          by_cases hev : e'.2 = v
          · rw [hev] at h1
            rw [h1, distLT_some] at hlt
            refine ⟨d + w, ?_, by linarith⟩
            rw [hev, distOf, lookupA_insertA_self]
          · refine ⟨dv', ?_, h2⟩
            rw [distOf, lookupA_insertA_ne _ _ _ _ hev]
            exact h1
        · obtain rfl : e' = (d + w, v) := by simpa using h
          refine ⟨d + w, ?_, le_refl _⟩
          rw [distOf, lookupA_insertA_self]
      · intro x hx
        by_cases hxv : x = v
        · exact hxv ▸ ReachableG.step hur he
        · rw [distOf, lookupA_insertA_ne _ _ _ _ hxv] at hx
          exact hinv.dist_reach x hx
      · intro e' he'
        rcases List.mem_append.mp he' with h | h
        · exact hinv.pq_reach e' h
        · obtain rfl : e' = (d + w, v) := by simpa using h
          exact ReachableG.step hur he
      · show distOf (insertA dist v (d + w)) u = some du
        rw [distOf, lookupA_insertA_ne _ _ _ _ hune]
        exact hdu
    · simp only [relaxOne, if_neg hvis, if_neg hlt]
      exact ⟨hinv, hdu⟩

/-- Relaxing a list of out-edges of a popped node preserves the invariant. -/
theorem relaxFold_inv {g : Graph} {s : String} (hwf : WFGraph g)
    (visited : List String) (d : ℚ) (u : String) (hd0 : 0 ≤ d)
    (hur : ReachableG g s u) (edges : List (String × ℚ)) :
    ∀ (_ : ∀ e ∈ edges, e ∈ adjOf g u)
      (dist : List (String × ℚ)) (pred : List (String × String)) (pq : List (ℚ × String)),
      Inv g s dist pred pq → ∀ du, distOf dist u = some du → du ≤ d →
      Inv g s (edges.foldl (relaxOne visited d u) (dist, pred, pq)).1
        (edges.foldl (relaxOne visited d u) (dist, pred, pq)).2.1
        (edges.foldl (relaxOne visited d u) (dist, pred, pq)).2.2 := by
  induction edges with
  | nil =>
    intro _ dist pred pq hinv du _ _
    simpa using hinv
  | cons e rest ih =>
    intro hsub dist pred pq hinv du hdu hdul
    rw [List.foldl_cons]
    obtain ⟨hinv', hdu'⟩ :=
      relaxOne_inv hwf visited d u hd0 hur hinv hdu hdul e (hsub e (by simp))
    exact ih (fun e' he' => hsub e' (by simp [he']))
      (relaxOne visited d u (dist, pred, pq) e).1
      (relaxOne visited d u (dist, pred, pq) e).2.1
      (relaxOne visited d u (dist, pred, pq) e).2.2
      hinv' du hdu' hdul

/-- The Dijkstra loop preserves the invariant, whatever the fuel. -/
theorem dijkstraLoop_inv {g : Graph} {s e : String} (hwf : WFGraph g) :
    ∀ (fuel : Nat) (st : DijkstraState), Inv g s st.dist st.pred st.pq →
      Inv g s (dijkstraLoop g e fuel st).dist (dijkstraLoop g e fuel st).pred
        (dijkstraLoop g e fuel st).pq := by
  intro fuel
  induction fuel with
  | zero => intro st hinv; simpa [dijkstraLoop] using hinv
  | succ n ih =>
    intro st hinv
    rw [dijkstraLoop]
    cases hpop : popMin st.pq with
    | none => exact hinv
    | some pr =>
      obtain ⟨⟨d, u⟩, pq'⟩ := pr
      dsimp only
      obtain ⟨hmem, hsub⟩ := popMin_spec st.pq (d, u) pq' hpop
      have hpq' : Inv g s st.dist st.pred pq' :=
        ⟨hinv.dist_s, fun e' he' => hinv.pq_nonneg e' (hsub e' he'), hinv.pred_s,
          hinv.pred_reaches, hinv.dist_pred, hinv.pred_mono,
          fun e' he' => hinv.pq_dist e' (hsub e' he'), hinv.dist_reach,
          fun e' he' => hinv.pq_reach e' (hsub e' he')⟩
      by_cases hvis : u ∈ st.visited
      · rw [if_pos hvis]
        exact ih _ hpq'
      · rw [if_neg hvis]
        by_cases hbe : u = e
        · rw [if_pos hbe]
          exact hpq'
        · rw [if_neg hbe]
          have hd0 : 0 ≤ d := hinv.pq_nonneg (d, u) hmem
          have hur : ReachableG g s u := hinv.pq_reach (d, u) hmem
          obtain ⟨du, hdu, hdul⟩ := hinv.pq_dist (d, u) hmem
          exact ih _ (relaxFold_inv hwf (u :: st.visited) d u hd0 hur (adjOf g u)
            (fun e' he' => he') st.dist st.pred pq' hpq' du hdu hdul)

/-- The invariant holds at loop entry. -/
theorem inv_init (g : Graph) (s : String) : Inv g s [(s, 0)] [] [(0, s)] := by
  refine ⟨?_, ?_, ?_, ?_, ?_, ?_, ?_, ?_, ?_⟩
  · simp [distOf, lookupA]
  · intro e he
    obtain rfl : e = (0, s) := by simpa using he
    exact le_refl _
  · rfl
  · intro v u h; simp [lookupA] at h
  · intro v hvs hvd
    by_cases hsv : s = v
    · exact absurd hsv.symm hvs
    · simp [distOf, lookupA, hsv] at hvd
  · intro v u h; simp [lookupA] at h
  · intro e he
    obtain rfl : e = (0, s) := by simpa using he
    exact ⟨0, by simp [distOf, lookupA], le_refl _⟩
  · intro v hv
    by_cases hsv : s = v
    · exact hsv ▸ ReachableG.refl
    · simp [distOf, lookupA, hsv] at hv
  · intro e he
    obtain rfl : e = (0, s) := by simpa using he
    exact ReachableG.refl

/-- How a successful `find_shortest_path` decomposes: the trivial same-node
case, or a completed Dijkstra run followed by path reconstruction. -/
theorem find_cases {g : Graph} {a b : String} {p : List String}
    (h : find_shortest_path g a b = some p) :
    (a = b ∧ p = [a]) ∨
      (a ≠ b ∧
        ∃ db, distOf (dijkstraLoop g b (fuelOf g) ⟨[(a, 0)], [], [(0, a)], []⟩).dist b = some db ∧
          p = rebuildAux (dijkstraLoop g b (fuelOf g) ⟨[(a, 0)], [], [(0, a)], []⟩).pred
                ((dijkstraLoop g b (fuelOf g) ⟨[(a, 0)], [], [(0, a)], []⟩).pred.length + 1)
                b []) := by
  by_cases h1 : ¬ memGraph g a ∨ ¬ memGraph g b
  · rw [find_shortest_path, if_pos h1] at h
    simp at h
  · by_cases h2 : a = b
    · rw [find_shortest_path, if_neg h1, if_pos h2] at h
      exact Or.inl ⟨h2, (Option.some.inj h).symm⟩
    · rw [find_shortest_path, if_neg h1, if_neg h2] at h
      dsimp only at h
      right
      refine ⟨h2, ?_⟩
      cases hd : distOf (dijkstraLoop g b (fuelOf g) ⟨[(a, 0)], [], [(0, a)], []⟩).dist b with
      | none =>
        rw [hd] at h
        simp at h
      | some db =>
        rw [hd] at h
        exact ⟨db, rfl, (Option.some.inj h).symm⟩

/-- On a well-formed graph, a found path starts at the start node. -/
theorem find_head {g : Graph} {a b : String} {p : List String} (hwf : WFGraph g)
    (h : find_shortest_path g a b = some p) : p.head? = some a := by
  rcases find_cases h with ⟨rfl, rfl⟩ | ⟨hab, db, hdb, rfl⟩
  · rfl
  · have hinv := dijkstraLoop_inv (e := b) hwf (fuelOf g) ⟨[(a, 0)], [], [(0, a)], []⟩
      (inv_init g a)
    have hbsome : (lookupA (dijkstraLoop g b (fuelOf g)
        ⟨[(a, 0)], [], [(0, a)], []⟩).pred b).isSome :=
      hinv.dist_pred b (Ne.symm hab) (by rw [hdb]; rfl)
    obtain ⟨b₀, hb₀⟩ := Option.isSome_iff_exists.mp hbsome
    have hreach := hinv.pred_reaches b b₀ hb₀
    obtain ⟨l, hchain⟩ := reaches_chainOK hreach
    obtain ⟨l₂, hc₂, hnd⟩ := chainOK_nodup hchain
    have hkeys : ∀ x ∈ l₂.dropLast,
        x ∈ (dijkstraLoop g b (fuelOf g) ⟨[(a, 0)], [], [(0, a)], []⟩).pred.map Prod.fst :=
      fun x hx => lookupA_isSome_mem_keys (chainOK_dropLast_keys hc₂ x hx)
    have hndrop : l₂.dropLast.Nodup := (List.dropLast_sublist l₂).nodup hnd
    have hlen1 := nodup_length_le _ _ hndrop hkeys
    rw [List.length_map] at hlen1
    have hne : l₂ ≠ [] := chainOK_ne_nil hc₂
    have hlen : l₂.length ≤
        (dijkstraLoop g b (fuelOf g) ⟨[(a, 0)], [], [(0, a)], []⟩).pred.length + 1 := by
      have hdl : l₂.dropLast.length = l₂.length - 1 := List.length_dropLast l₂
      have hpos : 1 ≤ l₂.length := List.length_pos.mpr hne
      omega
    exact rebuildAux_head hinv.pred_s hc₂ hlen

/-- A found path ends at the requested destination. -/
theorem find_getLast {g : Graph} {a b : String} {p : List String}
    (h : find_shortest_path g a b = some p) : p.getLast? = some b := by
  rcases find_cases h with ⟨rfl, rfl⟩ | ⟨hab, db, hdb, rfl⟩
  · rfl
  · obtain ⟨l, hl⟩ := rebuildAux_extends _ _ b []
    rw [hl]
    simp

/-- On a well-formed graph, the start node lies on every found path. -/
theorem find_start_mem {g : Graph} {a b : String} {p : List String} (hwf : WFGraph g)
    (h : find_shortest_path g a b = some p) : a ∈ p := by
  have hh := find_head hwf h
  cases p with
  | nil => simp at hh
  | cons x t =>
    obtain rfl : x = a := by simpa using hh
    exact List.mem_cons_self _ _

/-- Unreachable targets are reported as `None`. -/
theorem find_not_reachable {g : Graph} (hwf : WFGraph g) (a b : String)
    (hnr : ¬ ReachableG g a b) : find_shortest_path g a b = none := by
  cases hfind : find_shortest_path g a b with
  | none => rfl
  | some p =>
    rcases find_cases hfind with ⟨rfl, -⟩ | ⟨-, db, hdb, -⟩
    · exact absurd ReachableG.refl hnr
    · have hinv := dijkstraLoop_inv (e := b) hwf (fuelOf g) ⟨[(a, 0)], [], [(0, a)], []⟩
        (inv_init g a)
      exact absurd (hinv.dist_reach b (by rw [hdb]; rfl)) hnr

/-- C5: `find_shortest_path` reports failure (`None`) without raising when
either id is absent from the graph and when the two nodes are disconnected,
and the failure is distinguishable from an empty-but-successful path: a
successful result is never the empty path. -/
theorem find_shortest_path_failure :
    (∀ (g : Graph) (a b : String), ¬ memGraph g a ∨ ¬ memGraph g b →
      find_shortest_path g a b = none) ∧
    (∀ (g : Graph) (a b : String), WFGraph g → ¬ ReachableG g a b →
      find_shortest_path g a b = none) ∧
    (∀ (g : Graph) (a b : String), find_shortest_path g a b ≠ some []) := by
  refine ⟨?_, ?_, ?_⟩
  · intro g a b h
    rw [find_shortest_path, if_pos h]
  · intro g a b hwf hnr
    exact find_not_reachable hwf a b hnr
  · intro g a b h
    rcases find_cases h with ⟨-, hp⟩ | ⟨-, db, -, hp⟩
    · simp at hp
    · exact rebuildAux_ne_nil _ _ _ _ hp.symm

/-- In the edgeless two-node graph, only the start is reachable. -/
theorem gIsolated_reach (v : String) (h : ReachableG gIsolated "A" v) : v = "A" := by
  induction h with
  | refl => rfl
  | step h1 h2 ih =>
    rename_i u' v' w'
    subst ih
    simp [adjOf, gIsolated, lookupA] at h2

/-- Witness for C5: an id absent from the fixture graph, and the
disconnected pair of `gIsolated`, both fail; and no failure is ever the
empty path. -/
theorem find_shortest_path_failure_witness :
    find_shortest_path fixGraph "A" "ZZZ" = none ∧
      find_shortest_path gIsolated "A" "D" = none := by
  constructor
  · exact find_shortest_path_failure.1 fixGraph "A" "ZZZ" (Or.inr (by decide))
  · exact find_shortest_path_failure.2.1 gIsolated "A" "D" (by unfold WFGraph; decide)
      (fun h => absurd (gIsolated_reach "D" h) (by decide))

/-! ### Duplicate suppression and distance estimation (C7, C8) -/

/-- The source's `sqrt(dx^2+dy^2) < 50` is the squared comparison. -/
theorem centerDistance_lt_iff (t e : QRTarget) :
    centerDistance t e < 50 ↔ centerDist2 t e < 2500 := by
  rw [centerDistance, Real.sqrt_lt' (by norm_num : (0:ℝ) < 50)]
  constructor
  · intro h; exact_mod_cast (by norm_num at h ⊢; exact_mod_cast h : ((centerDist2 t e : ℤ) : ℝ) < 2500)
  · intro h; norm_num; exact_mod_cast h

/-- The source's `sqrt(dx^2+dy^2) ≥ 50` side, strict version. -/
theorem lt_centerDistance_iff (t e : QRTarget) :
    50 < centerDistance t e ↔ 2500 < centerDist2 t e := by
  rw [centerDistance, Real.lt_sqrt (by norm_num : (0:ℝ) ≤ 50)]
  constructor
  · intro h; norm_num at h; exact_mod_cast h
  · intro h; norm_num; exact_mod_cast h

/-- Squared center distance is symmetric. -/
theorem centerDist2_comm (t e : QRTarget) : centerDist2 t e = centerDist2 e t := by
  unfold centerDist2; ring

/-- C7: in the output of `detect_qr_codes`, two decoded markers whose
centers are within the fixed 50-pixel threshold collapse to one entry (the
later one is dropped, not merged), and two markers whose centers are farther
apart than the threshold both survive. -/
theorem detect_duplicate_suppression (r₁ r₂ : RawQR) :
    (centerDistance (mkTarget r₁) (mkTarget r₂) < 50 →
      detect_qr_codes [[r₁, r₂]] = [mkTarget r₁]) ∧
    (50 < centerDistance (mkTarget r₁) (mkTarget r₂) →
      detect_qr_codes [[r₁, r₂]] = [mkTarget r₁, mkTarget r₂]) := by
  constructor
  · intro h
    rw [centerDistance_lt_iff] at h
    have h' : centerDist2 (mkTarget r₂) (mkTarget r₁) < 2500 := by
      rw [centerDist2_comm]; exact h
    simp [detect_qr_codes, processVariant, is_duplicate, h']
  · intro h
    rw [lt_centerDistance_iff] at h
    have h' : ¬ centerDist2 (mkTarget r₂) (mkTarget r₁) < 2500 := by
      rw [centerDist2_comm]; omega
    simp [detect_qr_codes, processVariant, is_duplicate, h']

/-- Witness for C7 at concrete markers: two 10×10 squares whose centers are
(6,8) apart (distance 10 < 50): the later marker is dropped. -/
theorem detect_duplicate_suppression_witness :
    detect_qr_codes
        [[⟨[(0, 0), (10, 0), (10, 10), (0, 10)], "red"⟩,
          ⟨[(6, 8), (16, 8), (16, 18), (6, 18)], "red"⟩]] =
      [mkTarget ⟨[(0, 0), (10, 0), (10, 10), (0, 10)], "red"⟩] :=
  (detect_duplicate_suppression _ _).1
    ((centerDistance_lt_iff _ _).mpr (by decide))

/-- C8: for the fixed reference constants, `estimate_distance` is
`(reference_size × reference_distance) / size`, strictly decreasing in the
size over positive sizes, and maps size 0 to infinity. -/
theorem estimate_distance_spec :
    (∀ s : ℚ, 0 < s →
      estimate_distance s = ((reference_size * reference_distance / s : ℚ) : WithTop ℚ)) ∧
    (∀ s₁ s₂ : ℚ, 0 < s₁ → s₁ < s₂ →
      estimate_distance s₂ < estimate_distance s₁) ∧
    estimate_distance 0 = ⊤ := by
  refine ⟨fun s hs => ?_, fun s₁ s₂ h1 h12 => ?_, by simp [estimate_distance]⟩
  · rw [estimate_distance, if_neg (not_le.mpr hs)]
  · have h2 : (0:ℚ) < s₂ := h1.trans h12
    rw [estimate_distance, if_neg (not_le.mpr h2), estimate_distance, if_neg (not_le.mpr h1)]
    rw [WithTop.coe_lt_coe]
    have hnum : (0:ℚ) < reference_size * reference_distance := by
      norm_num [reference_size, reference_distance]
    exact div_lt_div_of_pos_left hnum h1 h12

/-- Witness for C8: sizes 2 and 3 px give 3000 cm and 2000 cm. -/
theorem estimate_distance_spec_witness :
    estimate_distance 2 = ((3000 : ℚ) : WithTop ℚ) ∧
      estimate_distance 3 < estimate_distance 2 := by
  constructor
  · rw [estimate_distance_spec.1 2 (by norm_num)]
    norm_num [reference_size, reference_distance]
  · exact estimate_distance_spec.2.1 2 3 (by norm_num) (by norm_num)

/-! ### Preprocessing-variant priority (C9) -/

/-- The dedup fold only appends. -/
theorem processVariant_extends (decoded : List RawQR) (acc : List QRTarget) :
    ∃ l, processVariant decoded acc = acc ++ l := by
  induction decoded generalizing acc with
  | nil => exact ⟨[], by simp [processVariant]⟩
  | cons r t ih =>
    show ∃ l, processVariant t (if is_duplicate (mkTarget r) acc then acc else acc ++ [mkTarget r]) = acc ++ l
    by_cases hd : is_duplicate (mkTarget r) acc
    · simpa [hd] using ih acc
    · obtain ⟨l, hl⟩ := ih (acc ++ [mkTarget r])
      exact ⟨mkTarget r :: l, by simpa [hd] using hl⟩

/-- A nonempty decode list yields a nonempty deduplicated list. -/
theorem processVariant_ne_nil (r : RawQR) (t : List RawQR) :
    processVariant (r :: t) [] ≠ [] := by
  show processVariant t (if is_duplicate (mkTarget r) [] then [] else [] ++ [mkTarget r]) ≠ []
  simp only [is_duplicate, List.any_nil, List.nil_append, if_neg Bool.false_ne_true]
  obtain ⟨l, hl⟩ := processVariant_extends t [mkTarget r]
  simp [hl]

/-- Variants that decode nothing are skipped. -/
theorem detect_skip_empty :
    ∀ early rest : List (List RawQR), (∀ x ∈ early, x = []) →
      detect_qr_codes (early ++ rest) = detect_qr_codes rest
  | [], _, _ => rfl
  | e :: t, rest, h => by
    have he : e = [] := h e (by simp)
    subst he
    have := detect_skip_empty t rest (fun x hx => h x (by simp [hx]))
    simpa [detect_qr_codes, processVariant] using this

/-- C9: `detect_qr_codes` runs the preprocessing variants in fixed priority
order and stops at the first variant that decodes at least one marker,
never merging results across variants; a frame no variant can decode yields
the empty list (not an error). -/
theorem detect_variant_priority :
    (∀ variants : List (List RawQR), (∀ d ∈ variants, d = []) → detect_qr_codes variants = []) ∧
    (∀ early d post, (∀ x ∈ early, x = []) → d ≠ [] →
      detect_qr_codes (early ++ d :: post) = processVariant d [] ∧
        detect_qr_codes (early ++ d :: post) ≠ []) := by
  constructor
  · intro variants hall
    have h := detect_skip_empty variants [] hall
    simpa using h
  · intro early d post hearly hd
    obtain ⟨r, t, rfl⟩ : ∃ r t, d = r :: t := by
      cases d with
      | nil => exact absurd rfl hd
      | cons r t => exact ⟨r, t, rfl⟩
    have hne := processVariant_ne_nil r t
    have hskip := detect_skip_empty early ((r :: t) :: post) hearly
    have hstep : detect_qr_codes ((r :: t) :: post) = processVariant (r :: t) [] := by
      simp [detect_qr_codes, hne]
    rw [hskip, hstep]
    exact ⟨rfl, hne⟩

/-- Witness for C9: an empty first variant is skipped, the second variant's
two decodes are kept, the third variant is ignored. -/
theorem detect_variant_priority_witness :
    detect_qr_codes [[], [⟨[(0, 0)], "red"⟩], [⟨[(9, 9)], "blue"⟩]] =
        processVariant [⟨[(0, 0)], "red"⟩] [] ∧
      detect_qr_codes [[], [⟨[(0, 0)], "red"⟩], [⟨[(9, 9)], "blue"⟩]] ≠ [] :=
  (detect_variant_priority.2 [[]] [⟨[(0, 0)], "red"⟩] [[⟨[(9, 9)], "blue"⟩]]
    (by simp) (by simp))

/-! ### Destination setting (C10) -/

/-! ### Session state-machine lemmas -/

/-- Members via `getLast?`. -/
theorem mem_of_getLastQ {l : List String} {a : String} (h : l.getLast? = some a) : a ∈ l := by
  cases l with
  | nil => simp at h
  | cons x t =>
    have hne : (x :: t) ≠ [] := by simp
    rw [List.getLast?_eq_getLast _ hne] at h
    obtain rfl : a = (x :: t).getLast hne := (Option.some.inj h).symm
    exact List.getLast_mem hne

/-- `getD` at a valid index is a member. -/
theorem getD_mem_of_lt {l : List String} {n : Nat} (h : n < l.length) (d : String) :
    l.getD n d ∈ l := by
  rw [List.getD_eq_getElem?_getD, List.getElem?_eq_getElem h]
  exact List.getElem_mem h

/-- A successful `prepare_navigation_path` is a successful, nonempty
`find_shortest_path`. -/
theorem prepare_some {ctx : GuidanceCtx} {cur : String} {dest : Option String}
    {p : List String} (h : prepare_navigation_path ctx cur dest = some p) :
    find_shortest_path ctx.graph cur (optStr dest) = some p ∧ p ≠ [] := by
  rw [prepare_navigation_path] at h
  split_ifs at h with h1 h2 h3
  all_goals try simp at h
  cases hf : find_shortest_path ctx.graph cur (optStr dest) with
  | none => rw [hf] at h; simp at h
  | some q =>
    rw [hf] at h
    dsimp only at h
    by_cases hq : q = []
    · rw [if_pos hq] at h; simp at h
    · rw [if_neg hq] at h
      obtain rfl : q = p := Option.some.inj h
      exact ⟨rfl, hq⟩

/-- A successful plan determines a non-falsy destination string. -/
theorem prepare_dest_some {ctx : GuidanceCtx} {cur : String} {dest : Option String}
    {p : List String} (h : prepare_navigation_path ctx cur dest = some p) :
    ∃ d, dest = some d ∧ optStr dest = d := by
  cases dest with
  | none =>
    rw [prepare_navigation_path, if_pos (by simp [strFalsy])] at h
    simp at h
  | some d => exact ⟨d, rfl, rfl⟩

/-- `set_destination` with a known location: exact success/failure shapes. -/
theorem set_destination_cases (ctx : GuidanceCtx) (s : NavState) (dest : Option String)
    {cur : LocationInfo} (hcur : s.current_location = some cur) :
    (∃ p, prepare_navigation_path ctx cur.location_id dest = some p ∧
      set_destination ctx s dest =
        ({ s with destination_id := dest, current_path := some p },
          .PATH_READY "Path calculated successfully." p)) ∨
    (prepare_navigation_path ctx cur.location_id dest = none ∧
      set_destination ctx s dest =
        ({ s with destination_id := dest, current_path := none },
          .ERROR ("Could not find a path to " ++ optStr dest ++ "."))) := by
  rw [set_destination, hcur]
  dsimp only
  cases hp : prepare_navigation_path ctx cur.location_id dest with
  | some p => exact Or.inl ⟨p, rfl, rfl⟩
  | none => exact Or.inr ⟨rfl, rfl⟩

/-- The location update of a readable frame, in terms of `confirmedOf`. -/
theorem updateLocation_spec (s : NavState) (loc : LocationInfo) :
    updateLocation s loc = { s with current_location := some (confirmedOf s loc) } ∧
      (confirmedOf s loc).location_id = loc.location_id := by
  cases s with
  | mk cl did cp =>
    cases cl with
    | none => exact ⟨rfl, rfl⟩
    | some c =>
      simp only [updateLocation, confirmedOf]
      by_cases hc : c.location_id = loc.location_id
      · rw [if_pos hc, if_pos hc]
        exact ⟨rfl, hc⟩
      · rw [if_neg hc, if_neg hc]
        exact ⟨rfl, rfl⟩

/-- A readable frame runs the state machine on the updated state. -/
theorem process_readable (ctx : GuidanceCtx) (s : NavState) (loc : LocationInfo)
    (corners : List (ℤ × ℤ)) :
    process_camera_frame ctx s (.markerReadable corners loc) =
      update_navigation_status ctx { s with current_location := some (confirmedOf s loc) }
        corners := by
  rw [process_camera_frame, (updateLocation_spec s loc).1]

/-- Re-reading a marker with the current id changes nothing. -/
theorem updateLocation_stable {s : NavState} {cur loc : LocationInfo}
    (h : s.current_location = some cur) (hid : cur.location_id = loc.location_id) :
    updateLocation s loc = s ∧ confirmedOf s loc = cur := by
  rw [updateLocation, confirmedOf, h]
  dsimp only
  rw [if_pos hid, if_pos hid]
  exact ⟨rfl, rfl⟩

/-- State machine: no active path (or an empty one) confirms the location. -/
theorem update_status_no_path (ctx : GuidanceCtx) (s : NavState) {cur : LocationInfo}
    (hcur : s.current_location = some cur) (corners : List (ℤ × ℤ))
    (hp : s.current_path = none ∨ s.current_path = some []) :
    update_navigation_status ctx s corners =
      (s, .LOCATION_CONFIRMED cur.location_name cur.location_id corners) := by
  rw [update_navigation_status, hcur]
  dsimp only
  rcases hp with hp | hp
  · rw [hp]
  · rw [hp]
    dsimp only
    rw [if_pos rfl]

/-- State machine: standing at the destination of an active path. -/
theorem update_status_arrived (ctx : GuidanceCtx) (s : NavState) {cur : LocationInfo}
    (hcur : s.current_location = some cur) (corners : List (ℤ × ℤ))
    {path : List String} (hp : s.current_path = some path) (hne : path ≠ [])
    (hdest : s.destination_id = some cur.location_id) :
    update_navigation_status ctx s corners = (s, .ARRIVED cur.location_name corners) := by
  rw [update_navigation_status, hcur]
  dsimp only
  rw [hp]
  dsimp only
  rw [if_neg hne, if_pos hdest]

/-- State machine: off the active path, re-planning succeeds. -/
theorem update_status_offtrack_success (ctx : GuidanceCtx) (s : NavState) {cur : LocationInfo}
    (hcur : s.current_location = some cur) (corners : List (ℤ × ℤ))
    {path : List String} (hp : s.current_path = some path) (hne : path ≠ [])
    (hdest : s.destination_id ≠ some cur.location_id)
    (hnm : cur.location_id ∉ path)
    {p : List String}
    (hplan : prepare_navigation_path ctx cur.location_id s.destination_id = some p) :
    update_navigation_status ctx s corners =
      ({ s with current_path := some p }, .OFF_TRACK_RECALCULATED p corners) := by
  rw [update_navigation_status, hcur]
  dsimp only
  rw [hp]
  dsimp only
  rw [if_neg hne, if_neg hdest, if_pos hnm, set_destination, hcur]
  dsimp only
  rw [hplan]

/-- State machine: off the active path, re-planning fails. -/
theorem update_status_offtrack_fail (ctx : GuidanceCtx) (s : NavState) {cur : LocationInfo}
    (hcur : s.current_location = some cur) (corners : List (ℤ × ℤ))
    {path : List String} (hp : s.current_path = some path) (hne : path ≠ [])
    (hdest : s.destination_id ≠ some cur.location_id)
    (hnm : cur.location_id ∉ path)
    (hplan : prepare_navigation_path ctx cur.location_id s.destination_id = none) :
    update_navigation_status ctx s corners =
      ({ s with current_path := none },
        .OFF_TRACK_ERROR "Off track. Failed to recalculate." corners) := by
  rw [update_navigation_status, hcur]
  dsimp only
  rw [hp]
  dsimp only
  rw [if_neg hne, if_neg hdest, if_pos hnm, set_destination, hcur]
  dsimp only
  rw [hplan]

/-- State machine: on the active path and not at the destination. The state
is left untouched; the result navigates to the next waypoint when the next
index is in range and its database entry exists, else merely confirms. -/
theorem update_status_onpath (ctx : GuidanceCtx) (s : NavState) {cur : LocationInfo}
    (hcur : s.current_location = some cur) (corners : List (ℤ × ℤ))
    {path : List String} (hp : s.current_path = some path) (hne : path ≠ [])
    (hdest : s.destination_id ≠ some cur.location_id)
    (hm : cur.location_id ∈ path) :
    update_navigation_status ctx s corners =
      (s, if idxOf path cur.location_id + 1 < path.length then
            (match lookupA ctx.locdb (path.getD (idxOf path cur.location_id + 1) "") with
             | some info => NavResult.NAVIGATING info.location_name
                 (calculate_bearing cur.coordinates info.coordinates)
                 (euclid cur.coordinates info.coordinates) corners
             | none => NavResult.LOCATION_CONFIRMED cur.location_name cur.location_id corners)
          else NavResult.LOCATION_CONFIRMED cur.location_name cur.location_id corners) := by
  rw [update_navigation_status, hcur]
  dsimp only
  rw [hp]
  dsimp only
  rw [if_neg hne, if_neg hdest, if_neg (not_not_intro hm)]
  by_cases hlt : idxOf path cur.location_id + 1 < path.length
  · rw [if_pos hlt, if_pos hlt]
    cases lookupA ctx.locdb (path.getD (idxOf path cur.location_id + 1) "") <;> rfl
  · rw [if_neg hlt, if_neg hlt]

/-- C10: when `set_destination` fails because planning finds no path
(including an unknown id), the session is still mutated before the failure
is returned: `destination_id` is overwritten with the requested id and
`current_path` is cleared. -/
theorem set_destination_failure_overwrites (ctx : GuidanceCtx) (s : NavState)
    (loc : LocationInfo) (dest : String)
    (hcur : s.current_location = some loc)
    (hfail : prepare_navigation_path ctx loc.location_id (some dest) = none) :
    set_destination ctx s (some dest) =
      ({ s with destination_id := some dest, current_path := none },
        .ERROR ("Could not find a path to " ++ dest ++ ".")) := by
  simp [set_destination, hcur, hfail, optStr]

/-- Witness for C10: planning to the unknown id `ZZZ` fails, yet the
destination is overwritten and the previously valid path is cleared. -/
theorem set_destination_failure_overwrites_witness :
    set_destination fixCtx ⟨some locA, none, some ["A", "B", "C"]⟩ (some "ZZZ") =
      (⟨some locA, some "ZZZ", none⟩,
        .ERROR ("Could not find a path to " ++ "ZZZ" ++ ".")) :=
  set_destination_failure_overwrites fixCtx _ locA "ZZZ" rfl (by decide)

/-! ### Shortest paths on the fixture graph (C1) -/

/-- The directed edges of `fixGraph`, enumerated. -/
theorem fixGraph_edges (x y : String) (w : ℚ) (h : edgeWeight fixGraph x y = some w) :
    (x = "A" ∧ y = "B" ∧ w = 3) ∨ (x = "B" ∧ y = "A" ∧ w = 3) ∨
      (x = "B" ∧ y = "C" ∧ w = 4) ∨ (x = "C" ∧ y = "B" ∧ w = 4) := by
  simp only [edgeWeight, adjOf, fixGraph, lookupA] at h
  split_ifs at h <;>
    (try simp only [Option.getD, lookupA] at h) <;>
    (try split_ifs at h) <;>
    simp_all <;> tauto

/-- The distance table vanishes at targets outside the fixture nodes. -/
theorem fixDelta_outside (u t : String)
    (h1 : t ≠ "A") (h2 : t ≠ "B") (h3 : t ≠ "C") : fixDelta u t = 0 := by
  unfold fixDelta
  by_cases h0 : u = t
  · rw [if_pos h0]
  · rw [if_neg h0,
      if_neg (by
        rintro (⟨-, hz⟩ | ⟨-, hz⟩)
        · exact h2 hz
        · exact h1 hz),
      if_neg (by
        rintro (⟨-, hz⟩ | ⟨-, hz⟩)
        · exact h3 hz
        · exact h2 hz),
      if_neg (by
        rintro (⟨-, hz⟩ | ⟨-, hz⟩)
        · exact h3 hz
        · exact h1 hz)]

unseal Rat.add in
/-- Triangle inequality of the fixture distance table along fixture edges. -/
theorem fixDelta_triangle (x y : String) (w : ℚ) (t : String)
    (h : edgeWeight fixGraph x y = some w) : fixDelta x t ≤ w + fixDelta y t := by
  have hcase : t = "A" ∨ t = "B" ∨ t = "C" ∨ (t ≠ "A" ∧ t ≠ "B" ∧ t ≠ "C") := by tauto
  rcases fixGraph_edges x y w h with ⟨hx, hy, hw⟩ | ⟨hx, hy, hw⟩ | ⟨hx, hy, hw⟩ | ⟨hx, hy, hw⟩ <;>
    subst hx <;> subst hy <;> subst hw <;>
    rcases hcase with ht | ht | ht | ⟨ht1, ht2, ht3⟩ <;>
    first
      | (subst ht; decide)
      | (rw [fixDelta_outside _ t ht1 ht2 ht3, fixDelta_outside _ t ht1 ht2 ht3]
         norm_num)

/-- Lower bound: every path of the fixture graph from `u` to `v` weighs at
least `fixDelta u v`. -/
theorem fixDelta_lower_bound (p : List String) :
    ∀ u v : String, isPathIn fixGraph u v p = true → fixDelta u v ≤ pathWeight fixGraph p := by
  induction p with
  | nil => intro u v h; simp [isPathIn] at h
  | cons x rest ih =>
    intro u v h
    simp only [isPathIn, Bool.and_eq_true, decide_eq_true_eq] at h
    obtain ⟨⟨hhead, hlast⟩, hchain⟩ := h
    have hux : u = x := by simpa using hhead.symm
    subst hux
    cases rest with
    | nil =>
      have hv : v = u := by simpa using hlast.symm
      subst hv
      simp [fixDelta, pathWeight]
    | cons y t =>
      have hchain' : (edgeWeight fixGraph u y).isSome ∧ chainedB fixGraph (y :: t) = true := by
        simpa [chainedB, Bool.and_eq_true] using hchain
      obtain ⟨hedge, hchainyt⟩ := hchain'
      obtain ⟨w, hw⟩ := Option.isSome_iff_exists.mp hedge
      have hlast' : (y :: t).getLast? = some v := by
        simpa [List.getLast?_cons_cons] using hlast
      have hyv : isPathIn fixGraph y v (y :: t) = true := by
        simp [isPathIn, hlast', hchainyt]
      have hih := ih y v hyv
      have htri := fixDelta_triangle u y w v hw
      calc fixDelta u v ≤ w + fixDelta y v := htri
        _ ≤ w + pathWeight fixGraph (y :: t) := by linarith
        _ = pathWeight fixGraph (u :: y :: t) := by
            simp [pathWeight, hw]

unseal Rat.add in
/-- C1: on the spec's fixture graph (`A-B` weight 3, `B-C` weight 4), for
every pair of nodes connected by some path, `find_shortest_path` returns a
path whose summed edge weight is less than or equal to that of every
alternative path; in particular `find_shortest_path A C = [A, B, C]` and the
`total_distance` reported by `prepare_navigation_data` for `A → C` is 7. -/
theorem shortest_path_optimal :
    (∀ u v : String, u ∈ ["A", "B", "C"] → v ∈ ["A", "B", "C"] →
      (∃ p, isPathIn fixGraph u v p = true) →
      ∃ best, find_shortest_path fixGraph u v = some best ∧
        isPathIn fixGraph u v best = true ∧
        ∀ q, isPathIn fixGraph u v q = true →
          pathWeight fixGraph best ≤ pathWeight fixGraph q) ∧
    find_shortest_path fixGraph "A" "C" = some ["A", "B", "C"] ∧
    nav_total_distance fixCtx "A" (some "C") = some 7 := by
  refine ⟨?_, by decide, ?_⟩
  · intro u v hu hv _hconn
    fin_cases hu <;> fin_cases hv
    · exact ⟨["A"], by decide, by decide, fun q hq =>
        le_trans (le_of_eq (by decide)) (fixDelta_lower_bound q "A" "A" hq)⟩
    · exact ⟨["A", "B"], by decide, by decide, fun q hq =>
        le_trans (le_of_eq (by decide)) (fixDelta_lower_bound q "A" "B" hq)⟩
    · exact ⟨["A", "B", "C"], by decide, by decide, fun q hq =>
        le_trans (le_of_eq (by decide)) (fixDelta_lower_bound q "A" "C" hq)⟩
    · exact ⟨["B", "A"], by decide, by decide, fun q hq =>
        le_trans (le_of_eq (by decide)) (fixDelta_lower_bound q "B" "A" hq)⟩
    · exact ⟨["B"], by decide, by decide, fun q hq =>
        le_trans (le_of_eq (by decide)) (fixDelta_lower_bound q "B" "B" hq)⟩
    · exact ⟨["B", "C"], by decide, by decide, fun q hq =>
        le_trans (le_of_eq (by decide)) (fixDelta_lower_bound q "B" "C" hq)⟩
    · exact ⟨["C", "B", "A"], by decide, by decide, fun q hq =>
        le_trans (le_of_eq (by decide)) (fixDelta_lower_bound q "C" "A" hq)⟩
    · exact ⟨["C", "B"], by decide, by decide, fun q hq =>
        le_trans (le_of_eq (by decide)) (fixDelta_lower_bound q "C" "B" hq)⟩
    · exact ⟨["C"], by decide, by decide, fun q hq =>
        le_trans (le_of_eq (by decide)) (fixDelta_lower_bound q "C" "C" hq)⟩
  · have hp : prepare_navigation_path fixCtx "A" (some "C") = some ["A", "B", "C"] := by decide
    have hA : (lookupA fixNodes "A").getD (0, 0) = ((0 : ℚ), (0 : ℚ)) := rfl
    have hB : (lookupA fixNodes "B").getD (0, 0) = ((3 : ℚ), (0 : ℚ)) := rfl
    have hC : (lookupA fixNodes "C").getD (0, 0) = ((3 : ℚ), (4 : ℚ)) := rfl
    have e1 : euclid ((0 : ℚ), (0 : ℚ)) ((3 : ℚ), (0 : ℚ)) = 3 := by
      rw [euclid, show (((3 : ℚ) - 0) ^ 2 + ((0 : ℚ) - 0) ^ 2 : ℚ) = 9 by norm_num,
        show (((9 : ℚ) : ℝ)) = (3 : ℝ) ^ 2 by norm_num]
      exact Real.sqrt_sq (by norm_num)
    have e2 : euclid ((3 : ℚ), (0 : ℚ)) ((3 : ℚ), (4 : ℚ)) = 4 := by
      rw [euclid, show (((3 : ℚ) - 3) ^ 2 + ((4 : ℚ) - 0) ^ 2 : ℚ) = 16 by norm_num,
        show (((16 : ℚ) : ℝ)) = (4 : ℝ) ^ 2 by norm_num]
      exact Real.sqrt_sq (by norm_num)
    have ht : total_distance fixNodes ["A", "B", "C"] = 7 := by
      simp only [total_distance, hA, hB, hC, e1, e2]
      norm_num
    rw [nav_total_distance, hp, Option.map_some']
    show some (total_distance fixNodes ["A", "B", "C"]) = some 7
    rw [ht]

/-- Witness for C1 at the pair `(A, C)`. -/
theorem shortest_path_optimal_witness :
    ∃ best, find_shortest_path fixGraph "A" "C" = some best ∧
      isPathIn fixGraph "A" "C" best = true ∧
      ∀ q, isPathIn fixGraph "A" "C" q = true →
        pathWeight fixGraph best ≤ pathWeight fixGraph q :=
  shortest_path_optimal.1 "A" "C" (by decide) (by decide)
    ⟨["A", "B", "C"], by decide⟩

/-! ### The session invariant (spec §3) -/

/-- A fresh session satisfies the invariant. -/
theorem sessionInv_init : SessionInv ⟨none, none, none⟩ := by
  intro p hp
  simp at hp

/-- `set_destination` establishes/preserves the session invariant. -/
theorem sessionInv_set_destination (ctx : GuidanceCtx) (s : NavState) (dest : Option String)
    (hs : SessionInv s) : SessionInv (set_destination ctx s dest).1 := by
  cases hcur : s.current_location with
  | none =>
    rw [set_destination, hcur]
    exact hs
  | some cur =>
    rcases set_destination_cases ctx s dest hcur with ⟨p, hplan, heq⟩ | ⟨hplan, heq⟩
    · rw [heq]
      intro q hq _
      obtain rfl : p = q := Option.some.inj hq
      obtain ⟨hfind, -⟩ := prepare_some hplan
      obtain ⟨d, rfl, hod⟩ := prepare_dest_some hplan
      have hlast := find_getLast hfind
      rw [hod] at hlast
      exact hlast
    · rw [heq]
      intro q hq _
      simp at hq

/-- The state machine preserves the session invariant. -/
theorem sessionInv_update_nav (ctx : GuidanceCtx) (s : NavState) (corners : List (ℤ × ℤ))
    (hs : SessionInv s) : SessionInv (update_navigation_status ctx s corners).1 := by
  cases hcur : s.current_location with
  | none =>
    rw [update_navigation_status, hcur]
    exact hs
  | some cur =>
    cases hpath : s.current_path with
    | none =>
      rw [update_status_no_path ctx s hcur corners (Or.inl hpath)]
      exact hs
    | some path =>
      by_cases hne : path = []
      · rw [update_status_no_path ctx s hcur corners (Or.inr (hne ▸ hpath))]
        exact hs
      · by_cases hdest : s.destination_id = some cur.location_id
        · rw [update_status_arrived ctx s hcur corners hpath hne hdest]
          exact hs
        · by_cases hm : cur.location_id ∈ path
          · rw [update_status_onpath ctx s hcur corners hpath hne hdest hm]
            exact hs
          · cases hplan : prepare_navigation_path ctx cur.location_id s.destination_id with
            | some p =>
              rw [update_status_offtrack_success ctx s hcur corners hpath hne hdest hm hplan]
              intro q hq _
              obtain rfl : p = q := Option.some.inj hq
              obtain ⟨hfind, -⟩ := prepare_some hplan
              obtain ⟨d, hd, hod⟩ := prepare_dest_some hplan
              have hlast := find_getLast hfind
              rw [hod] at hlast
              rw [hlast]
              exact hd.symm
            | none =>
              rw [update_status_offtrack_fail ctx s hcur corners hpath hne hdest hm hplan]
              intro q hq _
              simp at hq

/-- Every frame preserves the session invariant. -/
theorem sessionInv_process (ctx : GuidanceCtx) (s : NavState) (obs : FrameObs)
    (hs : SessionInv s) : SessionInv (process_camera_frame ctx s obs).1 := by
  cases obs with
  | noMarker => exact hs
  | markerUnreadable corners => exact hs
  | markerReadable corners loc =>
    rw [process_readable]
    exact sessionInv_update_nav ctx _ corners (fun p hp hne => hs p hp hne)

/-! ### Off-track re-planning (C2) -/

/-- C2: in a session state (satisfying the session invariant) with an
active path, a readable frame whose confirmed location is not on that path
makes `process_camera_frame` re-plan from the confirmed location to the
existing destination: on success it returns `OFF_TRACK_RECALCULATED` with
the new path installed as the current path, on failure `OFF_TRACK_ERROR`
with the current path unset — in neither case is the stale path kept. -/
theorem process_offtrack (ctx : GuidanceCtx) (s : NavState) (loc : LocationInfo)
    (corners : List (ℤ × ℤ)) (path : List String)
    (hwf : WFGraph ctx.graph) (hinv : SessionInv s)
    (hp : s.current_path = some path) (hne : path ≠ [])
    (hoff : loc.location_id ∉ path) :
    ((∃ p, prepare_navigation_path ctx (confirmedOf s loc).location_id s.destination_id =
          some p ∧
        (process_camera_frame ctx s (.markerReadable corners loc)).2 =
          .OFF_TRACK_RECALCULATED p corners ∧
        (process_camera_frame ctx s (.markerReadable corners loc)).1.current_path = some p) ∨
      (prepare_navigation_path ctx (confirmedOf s loc).location_id s.destination_id = none ∧
        (process_camera_frame ctx s (.markerReadable corners loc)).2 =
          .OFF_TRACK_ERROR "Off track. Failed to recalculate." corners ∧
        (process_camera_frame ctx s (.markerReadable corners loc)).1.current_path = none)) ∧
      (process_camera_frame ctx s (.markerReadable corners loc)).1.current_path ≠
        some path := by
  have hid := (updateLocation_spec s loc).2
  set cur := confirmedOf s loc with hcurdef
  have hoff' : cur.location_id ∉ path := by rw [hid]; exact hoff
  have hdest : s.destination_id ≠ some cur.location_id := by
    intro hd
    have hlast := hinv path hp hne
    exact hoff' (mem_of_getLastQ (hlast.trans hd))
  rw [process_readable]
  set s₁ : NavState := { s with current_location := some cur } with hs₁def
  have hcur₁ : s₁.current_location = some cur := rfl
  have hp₁ : s₁.current_path = some path := hp
  have hdest₁ : s₁.destination_id ≠ some cur.location_id := hdest
  cases hplan : prepare_navigation_path ctx cur.location_id s.destination_id with
  | some p =>
    rw [update_status_offtrack_success ctx s₁ hcur₁ corners hp₁ hne hdest₁ hoff' hplan]
    obtain ⟨hfind, hpne⟩ := prepare_some hplan
    have hmem : cur.location_id ∈ p := find_start_mem hwf hfind
    refine ⟨Or.inl ⟨p, rfl, rfl, rfl⟩, ?_⟩
    intro hq
    have hq' : some p = some path := hq
    exact hoff' ((Option.some.inj hq') ▸ hmem)
  | none =>
    rw [update_status_offtrack_fail ctx s₁ hcur₁ corners hp₁ hne hdest₁ hoff' hplan]
    exact ⟨Or.inr ⟨rfl, rfl, rfl⟩, by simp⟩

/-- Witness for C2: path `[A,B,C]` toward `C`, confirmed location `D` off
the path; re-planning from `D` to `C` succeeds. -/
theorem process_offtrack_witness :
    ((∃ p, prepare_navigation_path fixCtxD
          (confirmedOf ⟨some locA, some "C", some ["A", "B", "C"]⟩ locD).location_id
          (some "C") = some p ∧
        (process_camera_frame fixCtxD ⟨some locA, some "C", some ["A", "B", "C"]⟩
            (.markerReadable [] locD)).2 = .OFF_TRACK_RECALCULATED p [] ∧
        (process_camera_frame fixCtxD ⟨some locA, some "C", some ["A", "B", "C"]⟩
            (.markerReadable [] locD)).1.current_path = some p) ∨
      (prepare_navigation_path fixCtxD
          (confirmedOf ⟨some locA, some "C", some ["A", "B", "C"]⟩ locD).location_id
          (some "C") = none ∧
        (process_camera_frame fixCtxD ⟨some locA, some "C", some ["A", "B", "C"]⟩
            (.markerReadable [] locD)).2 =
          .OFF_TRACK_ERROR "Off track. Failed to recalculate." [] ∧
        (process_camera_frame fixCtxD ⟨some locA, some "C", some ["A", "B", "C"]⟩
            (.markerReadable [] locD)).1.current_path = none)) ∧
      (process_camera_frame fixCtxD ⟨some locA, some "C", some ["A", "B", "C"]⟩
          (.markerReadable [] locD)).1.current_path ≠ some ["A", "B", "C"] :=
  process_offtrack fixCtxD ⟨some locA, some "C", some ["A", "B", "C"]⟩ locD []
    ["A", "B", "C"] (by unfold WFGraph; decide)
    (fun p hp _ => by rw [← Option.some.inj hp]; rfl) rfl (by decide) (by decide)

/-! ### Session idempotence (C6) -/

/-- A readable frame for the already-confirmed id leaves the state as-is
before the state machine runs. -/
theorem process_readable_stable {ctx : GuidanceCtx} {s' : NavState} {loc cur : LocationInfo}
    {corners : List (ℤ × ℤ)} (h : s'.current_location = some cur)
    (hid : cur.location_id = loc.location_id) :
    process_camera_frame ctx s' (.markerReadable corners loc) =
      update_navigation_status ctx s' corners := by
  rw [process_camera_frame, (updateLocation_stable h hid).1]

/-- The on-path result is never an off-track status. -/
theorem isOffTrack_onpath_aux (c : Prop) [Decidable c] (o : Option LocationData)
    (cur : LocationInfo) (corners : List (ℤ × ℤ)) :
    isOffTrackResult
      (if c then
        (match o with
         | some info => NavResult.NAVIGATING info.location_name
             (calculate_bearing cur.coordinates info.coordinates)
             (euclid cur.coordinates info.coordinates) corners
         | none => NavResult.LOCATION_CONFIRMED cur.location_name cur.location_id corners)
       else NavResult.LOCATION_CONFIRMED cur.location_name cur.location_id corners) = false := by
  by_cases h : c
  · rw [if_pos h]
    cases o <;> rfl
  · rw [if_neg h]
    rfl

/-- C6: feeding the same readable frame twice in a row (no destination
change in between) is idempotent on the session: the second call leaves the
whole session state unchanged and triggers no second re-plan (its result is
never an off-track status). -/
theorem process_idempotent (ctx : GuidanceCtx) (s : NavState) (loc : LocationInfo)
    (corners : List (ℤ × ℤ)) (hwf : WFGraph ctx.graph) :
    (process_camera_frame ctx (process_camera_frame ctx s (.markerReadable corners loc)).1
        (.markerReadable corners loc)).1 =
      (process_camera_frame ctx s (.markerReadable corners loc)).1 ∧
    isOffTrackResult
      (process_camera_frame ctx (process_camera_frame ctx s (.markerReadable corners loc)).1
        (.markerReadable corners loc)).2 = false := by
  have hid := (updateLocation_spec s loc).2
  set cur := confirmedOf s loc with hcurdef
  rw [process_readable ctx s loc corners]
  set s₁ : NavState := { s with current_location := some cur } with hs₁def
  have hcur₁ : s₁.current_location = some cur := rfl
  cases hpath : s.current_path with
  | none =>
    have hp₁ : s₁.current_path = none := hpath
    rw [update_status_no_path ctx s₁ hcur₁ corners (Or.inl hp₁)]
    rw [process_readable_stable hcur₁ hid]
    rw [update_status_no_path ctx s₁ hcur₁ corners (Or.inl hp₁)]
    exact ⟨rfl, rfl⟩
  | some path =>
    have hp₁ : s₁.current_path = some path := hpath
    by_cases hne : path = []
    · rw [update_status_no_path ctx s₁ hcur₁ corners (Or.inr (hne ▸ hp₁))]
      rw [process_readable_stable hcur₁ hid]
      rw [update_status_no_path ctx s₁ hcur₁ corners (Or.inr (hne ▸ hp₁))]
      exact ⟨rfl, rfl⟩
    · by_cases hdest : s.destination_id = some cur.location_id
      · have hdest₁ : s₁.destination_id = some cur.location_id := hdest
        rw [update_status_arrived ctx s₁ hcur₁ corners hp₁ hne hdest₁]
        rw [process_readable_stable hcur₁ hid]
        rw [update_status_arrived ctx s₁ hcur₁ corners hp₁ hne hdest₁]
        exact ⟨rfl, rfl⟩
      · have hdest₁ : s₁.destination_id ≠ some cur.location_id := hdest
        by_cases hm : cur.location_id ∈ path
        · rw [update_status_onpath ctx s₁ hcur₁ corners hp₁ hne hdest₁ hm]
          rw [process_readable_stable hcur₁ hid]
          rw [update_status_onpath ctx s₁ hcur₁ corners hp₁ hne hdest₁ hm]
          exact ⟨rfl, isOffTrack_onpath_aux _ _ _ _⟩
        · cases hplan : prepare_navigation_path ctx cur.location_id s₁.destination_id with
          | some p =>
            rw [update_status_offtrack_success ctx s₁ hcur₁ corners hp₁ hne hdest₁ hm hplan]
            obtain ⟨hfind, hpne⟩ := prepare_some hplan
            have hmem : cur.location_id ∈ p := find_start_mem hwf hfind
            set s₂ : NavState := { s₁ with current_path := some p } with hs₂def
            have hcur₂ : s₂.current_location = some cur := rfl
            have hp₂ : s₂.current_path = some p := rfl
            have hdest₂ : s₂.destination_id ≠ some cur.location_id := hdest
            rw [process_readable_stable hcur₂ hid]
            rw [update_status_onpath ctx s₂ hcur₂ corners hp₂ hpne hdest₂ hmem]
            exact ⟨rfl, isOffTrack_onpath_aux _ _ _ _⟩
          | none =>
            rw [update_status_offtrack_fail ctx s₁ hcur₁ corners hp₁ hne hdest₁ hm hplan]
            set s₂ : NavState := { s₁ with current_path := none } with hs₂def
            have hcur₂ : s₂.current_location = some cur := rfl
            rw [process_readable_stable hcur₂ hid]
            rw [update_status_no_path ctx s₂ hcur₂ corners (Or.inl rfl)]
            exact ⟨rfl, rfl⟩

/-- Witness for C6 at a concrete off-track state: the second identical
frame leaves the session unchanged and reports no off-track status. -/
theorem process_idempotent_witness :
    (process_camera_frame fixCtxD
        (process_camera_frame fixCtxD ⟨some locA, some "C", some ["A", "B", "C"]⟩
          (.markerReadable [] locD)).1 (.markerReadable [] locD)).1 =
      (process_camera_frame fixCtxD ⟨some locA, some "C", some ["A", "B", "C"]⟩
        (.markerReadable [] locD)).1 ∧
    isOffTrackResult
      (process_camera_frame fixCtxD
        (process_camera_frame fixCtxD ⟨some locA, some "C", some ["A", "B", "C"]⟩
          (.markerReadable [] locD)).1 (.markerReadable [] locD)).2 = false :=
  process_idempotent fixCtxD ⟨some locA, some "C", some ["A", "B", "C"]⟩ locD []
    (by unfold WFGraph; decide)

/-! ### On-path navigation (C3) -/

/-- C3 counterexample: in the session state with active path `[A, B]`,
destination `C` and confirmed location `B` (on the path, not the
destination, next index out of range), `process_camera_frame` returns
`LOCATION_CONFIRMED`, not a `NAVIGATING` result toward the destination. -/
theorem process_navigating_counterexample :
    (("B" : String) ∈ ["A", "B"] ∧
      (some "C" : Option String) ≠ some "B") ∧
    (process_camera_frame fixCtx ⟨some locB, some "C", some ["A", "B"]⟩
        (.markerReadable [] locB)).2 =
      .LOCATION_CONFIRMED "Room B" "B" [] :=
  ⟨⟨by decide, by decide⟩, rfl⟩

/-- C3 (amended): with the confirmed location on the active path and not
the destination, and every path node present in the location database,
`process_camera_frame` leaves the state unchanged (except the location
update) and returns `NAVIGATING` toward the immediate next waypoint —
unless the next index is out of range, in which case it returns
`LOCATION_CONFIRMED` instead of navigating toward the destination. -/
theorem process_navigating (ctx : GuidanceCtx) (s : NavState) (loc : LocationInfo)
    (corners : List (ℤ × ℤ)) (path : List String)
    (hp : s.current_path = some path) (hne : path ≠ [])
    (hm : loc.location_id ∈ path)
    (hdest : s.destination_id ≠ some loc.location_id)
    (hdb : ∀ x ∈ path, (lookupA ctx.locdb x).isSome) :
    (process_camera_frame ctx s (.markerReadable corners loc)).1 =
      { s with current_location := some (confirmedOf s loc) } ∧
    (idxOf path loc.location_id + 1 < path.length →
      ∃ info, lookupA ctx.locdb (path.getD (idxOf path loc.location_id + 1) "") = some info ∧
        (process_camera_frame ctx s (.markerReadable corners loc)).2 =
          .NAVIGATING info.location_name
            (calculate_bearing (confirmedOf s loc).coordinates info.coordinates)
            (euclid (confirmedOf s loc).coordinates info.coordinates) corners) ∧
    (¬ idxOf path loc.location_id + 1 < path.length →
      (process_camera_frame ctx s (.markerReadable corners loc)).2 =
        .LOCATION_CONFIRMED (confirmedOf s loc).location_name loc.location_id corners) := by
  have hid := (updateLocation_spec s loc).2
  set cur := confirmedOf s loc with hcurdef
  have hm' : cur.location_id ∈ path := by rw [hid]; exact hm
  have hdest' : s.destination_id ≠ some cur.location_id := by rw [hid]; exact hdest
  rw [process_readable]
  set s₁ : NavState := { s with current_location := some cur } with hs₁def
  have hcur₁ : s₁.current_location = some cur := rfl
  have hp₁ : s₁.current_path = some path := hp
  have hdest₁ : s₁.destination_id ≠ some cur.location_id := hdest'
  rw [update_status_onpath ctx s₁ hcur₁ corners hp₁ hne hdest₁ hm']
  rw [hid]
  refine ⟨rfl, ?_, ?_⟩
  · intro hlt
    have hnext := hdb _ (getD_mem_of_lt hlt "")
    obtain ⟨info, hinfo⟩ := Option.isSome_iff_exists.mp hnext
    refine ⟨info, hinfo, ?_⟩
    show (if idxOf path loc.location_id + 1 < path.length then _ else _) = _
    rw [if_pos hlt, hinfo]
  · intro hlt
    show (if idxOf path loc.location_id + 1 < path.length then _ else _) = _
    rw [if_neg hlt]

/-- Witness for the amended C3: at `A` on path `[A, B, C]` toward `C`, the
result is `NAVIGATING` toward `B`. -/
theorem process_navigating_witness :
    (process_camera_frame fixCtx ⟨some locA, some "C", some ["A", "B", "C"]⟩
        (.markerReadable [] locA)).1 =
      { current_location :=
          some (confirmedOf ⟨some locA, some "C", some ["A", "B", "C"]⟩ locA),
        destination_id := some "C", current_path := some ["A", "B", "C"] } ∧
    (idxOf ["A", "B", "C"] "A" + 1 < (["A", "B", "C"] : List String).length →
      ∃ info, lookupA fixDB ((["A", "B", "C"] : List String).getD
          (idxOf ["A", "B", "C"] "A" + 1) "") = some info ∧
        (process_camera_frame fixCtx ⟨some locA, some "C", some ["A", "B", "C"]⟩
            (.markerReadable [] locA)).2 =
          .NAVIGATING info.location_name
            (calculate_bearing
              (confirmedOf ⟨some locA, some "C", some ["A", "B", "C"]⟩ locA).coordinates
              info.coordinates)
            (euclid (confirmedOf ⟨some locA, some "C", some ["A", "B", "C"]⟩ locA).coordinates
              info.coordinates) []) ∧
    (¬ idxOf ["A", "B", "C"] "A" + 1 < (["A", "B", "C"] : List String).length →
      (process_camera_frame fixCtx ⟨some locA, some "C", some ["A", "B", "C"]⟩
          (.markerReadable [] locA)).2 =
        .LOCATION_CONFIRMED
          (confirmedOf ⟨some locA, some "C", some ["A", "B", "C"]⟩ locA).location_name "A" []) :=
  process_navigating fixCtx ⟨some locA, some "C", some ["A", "B", "C"]⟩ locA []
    ["A", "B", "C"] rfl (by decide) (by decide) (by decide) (by decide)

/-! ### Planning on first confirmed location (C4) -/

unseal Rat.add in
/-- C4 counterexample: destination `C` is set, no path exists, and the
confirmed location `B` could be planned from (`prepare_navigation_path`
succeeds) — yet `process_camera_frame` merely returns `LOCATION_CONFIRMED`
and leaves `current_path` unset: no planning is attempted. -/
theorem process_no_plan_counterexample :
    prepare_navigation_path fixCtx "B" (some "C") = some ["B", "C"] ∧
    process_camera_frame fixCtx ⟨some locA, some "C", none⟩ (.markerReadable [] locB) =
      (⟨some locB, some "C", none⟩, .LOCATION_CONFIRMED "Room B" "B" []) :=
  ⟨by decide, rfl⟩

/-- C4 (amended): with no active path (regardless of whether a destination
is set), a readable frame only updates the confirmed location and returns
`LOCATION_CONFIRMED`; no planning is attempted — `current_path` and
`destination_id` are untouched. Planning happens only in `set_destination`
(called externally or by the off-track branch). -/
theorem process_no_plan_without_path (ctx : GuidanceCtx) (s : NavState) (loc : LocationInfo)
    (corners : List (ℤ × ℤ))
    (hp : s.current_path = none ∨ s.current_path = some []) :
    process_camera_frame ctx s (.markerReadable corners loc) =
      ({ s with current_location := some (confirmedOf s loc) },
        .LOCATION_CONFIRMED (confirmedOf s loc).location_name (confirmedOf s loc).location_id
          corners) := by
  rw [process_readable]
  exact update_status_no_path ctx _ rfl corners hp

/-- Witness for the amended C4. -/
theorem process_no_plan_without_path_witness :
    process_camera_frame fixCtx ⟨some locA, some "C", none⟩ (.markerReadable [] locB) =
      ({ current_location := some (confirmedOf ⟨some locA, some "C", none⟩ locB),
         destination_id := some "C", current_path := none },
        .LOCATION_CONFIRMED (confirmedOf ⟨some locA, some "C", none⟩ locB).location_name
          (confirmedOf ⟨some locA, some "C", none⟩ locB).location_id []) :=
  process_no_plan_without_path fixCtx ⟨some locA, some "C", none⟩ locB [] (Or.inl rfl)

end MPNav
